import Mathlib

set_option maxHeartbeats 1000000

set_option maxRecDepth 4000

set_option exponentiation.threshold 1200

/-- JSON-like values, modelling the Python values the engine operates on.
Python dicts preserve insertion order, so objects are ordered key-value lists. -/
inductive JVal where
  | null : JVal
  | bool (b : Bool) : JVal
  | int (n : Int) : JVal
  | float (q : ℚ) : JVal
  | str (s : String) : JVal
  | arr (xs : List JVal) : JVal
  | obj (kvs : List (String × JVal)) : JVal
  deriving Repr

mutual
/-- Structural equality on `JVal` (Python `==` on JSON-shaped values). -/
def jbeq : JVal → JVal → Bool
  | .null, .null => true
  | .bool a, .bool b => a == b
  | .int a, .int b => a == b
  | .float a, .float b => a == b
  | .str a, .str b => a == b
  | .arr xs, .arr ys => jbeqArr xs ys
  | .obj xs, .obj ys => jbeqObj xs ys
  | _, _ => false

/-- Elementwise equality of JSON arrays. -/
def jbeqArr : List JVal → List JVal → Bool
  | [], [] => true
  | x :: xs, y :: ys => jbeq x y && jbeqArr xs ys
  | _, _ => false

/-- Entrywise equality of ordered JSON objects. -/
def jbeqObj : List (String × JVal) → List (String × JVal) → Bool
  | [], [] => true
  | (k, v) :: xs, (l, w) :: ys => k == l && jbeq v w && jbeqObj xs ys
  | _, _ => false
end

mutual
theorem jbeq_iff : ∀ a b : JVal, jbeq a b = true ↔ a = b
  | .null, .null => by simp [jbeq]
  | .bool a, .bool b => by simp [jbeq]
  | .int a, .int b => by simp [jbeq]
  | .float a, .float b => by simp [jbeq]
  | .str a, .str b => by simp [jbeq]
  | .arr xs, .arr ys => by
      have h := jbeqArr_iff xs ys
      simp [jbeq, h]
  | .obj xs, .obj ys => by
      have h := jbeqObj_iff xs ys
      simp [jbeq, h]
  | .null, .bool _ | .null, .int _ | .null, .float _ | .null, .str _
  | .null, .arr _ | .null, .obj _ => by simp [jbeq]
  | .bool _, .null | .bool _, .int _ | .bool _, .float _ | .bool _, .str _
  | .bool _, .arr _ | .bool _, .obj _ => by simp [jbeq]
  | .int _, .null | .int _, .bool _ | .int _, .float _ | .int _, .str _
  | .int _, .arr _ | .int _, .obj _ => by simp [jbeq]
  | .float _, .null | .float _, .bool _ | .float _, .int _ | .float _, .str _
  | .float _, .arr _ | .float _, .obj _ => by simp [jbeq]
  | .str _, .null | .str _, .bool _ | .str _, .int _ | .str _, .float _
  | .str _, .arr _ | .str _, .obj _ => by simp [jbeq]
  | .arr _, .null | .arr _, .bool _ | .arr _, .int _ | .arr _, .float _
  | .arr _, .str _ | .arr _, .obj _ => by simp [jbeq]
  | .obj _, .null | .obj _, .bool _ | .obj _, .int _ | .obj _, .float _
  | .obj _, .str _ | .obj _, .arr _ => by simp [jbeq]

theorem jbeqArr_iff : ∀ xs ys : List JVal, jbeqArr xs ys = true ↔ xs = ys
  | [], [] => by simp [jbeqArr]
  | [], _ :: _ => by simp [jbeqArr]
  | _ :: _, [] => by simp [jbeqArr]
  | x :: xs, y :: ys => by
      have h1 := jbeq_iff x y
      have h2 := jbeqArr_iff xs ys
      simp [jbeqArr, h1, h2]

theorem jbeqObj_iff :
    ∀ xs ys : List (String × JVal), jbeqObj xs ys = true ↔ xs = ys
  | [], [] => by simp [jbeqObj]
  | [], _ :: _ => by simp [jbeqObj]
  | _ :: _, [] => by simp [jbeqObj]
  | (k, v) :: xs, (l, w) :: ys => by
      have h1 := jbeq_iff v w
      have h2 := jbeqObj_iff xs ys
      simp [jbeqObj, h1, h2]
end

instance : DecidableEq JVal := fun a b => decidable_of_iff _ (jbeq_iff a b)

/-- First value bound to key `k` in an ordered association list (Python `dict.get`). -/
def lookupKV (kvs : List (String × JVal)) (k : String) : Option JVal :=
  match kvs with
  | [] => none
  | (k', v) :: rest => if k' = k then some v else lookupKV rest k

/-- `d.get(k)` on a `JVal`: `none` when `d` is not an object or the key is absent. -/
def jget (v : JVal) (k : String) : Option JVal :=
  match v with
  | .obj kvs => lookupKV kvs k
  | _ => none

theorem lookupKV_mem {kvs : List (String × JVal)} {k : String} {w : JVal}
    (h : lookupKV kvs k = some w) : ∃ k', (k', w) ∈ kvs := by
  induction kvs with
  | nil => simp [lookupKV] at h
  | cons p rest ih =>
    obtain ⟨k', v⟩ := p
    by_cases hk : k' = k
    · subst hk
      simp [lookupKV] at h
      exact ⟨k', by simp [h]⟩
    · simp [lookupKV, hk] at h
      obtain ⟨k'', hm⟩ := ih h
      exact ⟨k'', by simp [hm]⟩

theorem jget_sizeOf_lt {v w : JVal} {k : String} (h : jget v k = some w) :
    sizeOf w < sizeOf v := by
  match v with
  | .obj kvs =>
    simp only [jget] at h
    obtain ⟨k', hm⟩ := lookupKV_mem h
    have h1 := List.sizeOf_lt_of_mem hm
    have h2 : sizeOf w < sizeOf (k', w) := by
      simp only [Prod.mk.sizeOf_spec]
      omega
    simp only [JVal.obj.sizeOf_spec]
    omega
  | .null => simp [jget] at h
  | .bool b => simp [jget] at h
  | .int n => simp [jget] at h
  | .float q => simp [jget] at h
  | .str s => simp [jget] at h
  | .arr xs => simp [jget] at h

theorem mem_arr_sizeOf_lt {x : JVal} {xs : List JVal} (h : x ∈ xs) :
    sizeOf x < sizeOf (JVal.arr xs) := by
  have := List.sizeOf_lt_of_mem h
  simp only [JVal.arr.sizeOf_spec]
  omega

/-- Python `str.lower` (ASCII case mapping, which covers the repository's tag names). -/
def pyLower (s : String) : String := String.mk (s.data.map Char.toLower)

/-- Substring test on character lists: does `needle` occur inside `hay`? -/
def containsSub (needle hay : List Char) : Bool :=
  needle.isPrefixOf hay ||
    match hay with
    | [] => false
    | _ :: t => containsSub needle t

/-- Python `needle in hay` on strings. -/
def strContains (hay needle : String) : Bool := containsSub needle.data hay.data

/-- Insert-or-replace for an ordered dict: existing key keeps its position. -/
def insertKV : List (String × JVal) → String → JVal → List (String × JVal)
  | [], k, v => [(k, v)]
  | (k', v') :: rest, k, v =>
      if k' = k then (k', v) :: rest else (k', v') :: insertKV rest k v

/-- Python `dict.update`: fold the new entries into the ordered dict. -/
def updateKV (d : List (String × JVal)) (es : List (String × JVal)) : List (String × JVal) :=
  es.foldl (fun acc e => insertKV acc e.1 e.2) d

theorem mem_kvs_sizeOf_lt {k : String} {v : JVal} {kvs : List (String × JVal)}
    (h : (k, v) ∈ kvs) : sizeOf v < sizeOf (JVal.obj kvs) := by
  have h1 := List.sizeOf_lt_of_mem h
  have h2 : sizeOf v < sizeOf (k, v) := by
    simp only [Prod.mk.sizeOf_spec]
    omega
  simp only [JVal.obj.sizeOf_spec]
  omega

/-- Runtime-tag leaf typing used by `extract_flat_attributes`
(bool → "boolean", int/float → "number", else "string"). -/
def leafType (v : JVal) : String :=
  match v with
  | .bool _ => "boolean"
  | .int _ => "number"
  | .float _ => "number"
  | .str _ => "string"
  | _ => "string"

/-- Dotted-path join: `full_key = f"{prefix}.{key}" if prefix else key`. -/
def dotKey (pre key : String) : String := if pre = "" then key else pre ++ "." ++ key

mutual
/-- Embeds `extract_flat_attributes` from `Backend/app/api/v1/collections.py`:
flattens objects with dotted paths, samples only the first element of arrays,
and types leaves by runtime tag. -/
def extract_flat_attributes (data : JVal) (pre : String) : List (String × JVal) :=
  match data with
  | .obj kvs => extractFlatPairs kvs pre []
  | .arr (x :: _) =>
      match x with
      | .obj kvs2 => extract_flat_attributes (.obj kvs2) pre
      | _ =>
          if pre ≠ "" then
            [(pre, .obj [("value", x), ("type", .str "string"), ("path", .str pre)])]
          else []
  | _ => []
termination_by sizeOf data
decreasing_by
  · simp only [JVal.obj.sizeOf_spec]
    omega
  · simp only [JVal.arr.sizeOf_spec, JVal.obj.sizeOf_spec, List.cons.sizeOf_spec]
    omega

/-- The `for key, value in data.items()` loop of `extract_flat_attributes`,
threading the accumulated ordered dict. -/
def extractFlatPairs (kvs : List (String × JVal)) (pre : String)
    (acc : List (String × JVal)) : List (String × JVal) :=
  match kvs with
  | [] => acc
  | (key, .obj kvs2) :: rest =>
      extractFlatPairs rest pre
        (updateKV acc (extract_flat_attributes (.obj kvs2) (dotKey pre key)))
  | (key, .arr xs) :: rest =>
      extractFlatPairs rest pre
        (updateKV acc (extract_flat_attributes (.arr xs) (dotKey pre key)))
  | (key, value) :: rest =>
      extractFlatPairs rest pre
        (insertKV acc (dotKey pre key)
          (.obj [("value", value), ("type", .str (leafType value)),
                 ("path", .str (dotKey pre key))]))
termination_by sizeOf kvs
decreasing_by
  · simp only [List.cons.sizeOf_spec, Prod.mk.sizeOf_spec, JVal.obj.sizeOf_spec]
    omega
  · simp only [List.cons.sizeOf_spec]
    omega
  · simp only [List.cons.sizeOf_spec, Prod.mk.sizeOf_spec, JVal.arr.sizeOf_spec]
    omega
  · simp only [List.cons.sizeOf_spec]
    omega
  · simp only [List.cons.sizeOf_spec]
    omega
end

instance : BEq JVal := ⟨jbeq⟩

theorem jval_beq_iff (a b : JVal) : (a == b) = true ↔ a = b := jbeq_iff a b

/-- Python truthiness of a JSON value (`if x:`). -/
def truthy (v : JVal) : Bool :=
  match v with
  | .null => false
  | .bool b => b
  | .int n => n != 0
  | .float q => q != 0
  | .str s => s ≠ ""
  | .arr xs => xs ≠ []
  | .obj kvs => kvs ≠ []

/-- `item.get("name", "")`, assuming well-formed items whose names are strings. -/
def nameStr (i : JVal) : String :=
  match jget i "name" with
  | some (.str s) => s
  | _ => ""

/-- `item.get("name")` with Python's `None` default modelled as `JVal.null`
(JSON `null` also reads back as `None`). -/
def nameOrNull (i : JVal) : JVal := (jget i "name").getD .null

/-- `item.get("request", {}).get("method", "")`. -/
def methodValD (i : JVal) : JVal :=
  match jget i "request" with
  | some r => (jget r "method").getD (.str "")
  | none => .str ""

/-- `item.get("request", {}).get("method")` with `None` default. -/
def methodOrNull (i : JVal) : JVal :=
  match jget i "request" with
  | some r => (jget r "method").getD .null
  | none => .null

/-- `"item" in item and isinstance(item["item"], list)`. -/
def isFolderList (i : JVal) : Bool :=
  match jget i "item" with
  | some (.arr _) => true
  | _ => false

/-- The folder's `item` list (callers establish `isFolderList`). -/
def childItems (i : JVal) : List JVal :=
  match jget i "item" with
  | some (.arr xs) => xs
  | _ => []

/-- `"request" in item`. -/
def hasRequest (i : JVal) : Bool := (jget i "request").isSome

/-- `{**item, "item": l}` for a dict that already has an `item` key:
replace the value bound to `"item"`, keeping key order. -/
def setItems (i : JVal) (l : List JVal) : JVal :=
  match i with
  | .obj kvs => .obj (kvs.map (fun kv => if kv.1 = "item" then (kv.1, .arr l) else kv))
  | _ => i

/-- `is_injection_request` from `merge_collection_items`:
`"injection" in item.get("name", "").lower()`. -/
def is_injection_request (i : JVal) : Bool := strContains (pyLower (nameStr i)) "injection"

/-- `is_clone` from `merge_collection_items`: `"(copy)" in name.lower()`. -/
def is_clone (i : JVal) : Bool := strContains (pyLower (nameStr i)) "(copy)"

/-- `is_injection_folder`: an item-list carrier whose name contains "injection". -/
def is_injection_folder (i : JVal) : Bool :=
  isFolderList i && strContains (pyLower (nameStr i)) "injection"

/-- `flatten_items` from `merge_collection_items`: flatten nested folders,
emitting only non-folder items. -/
def flatten_items (items : List JVal) : List JVal :=
  match items with
  | [] => []
  | i :: rest =>
      (match hm : jget i "item" with
       | some (.arr xs) => flatten_items xs
       | _ => [i]) ++ flatten_items rest
termination_by sizeOf items
decreasing_by
  · have h2 := jget_sizeOf_lt hm
    have h3 : sizeOf xs < sizeOf (JVal.arr xs) := by
      simp only [JVal.arr.sizeOf_spec]
      omega
    simp only [List.cons.sizeOf_spec]
    omega
  · simp only [List.cons.sizeOf_spec]
    omega

/-- `find_matching_item`: first non-injection, non-clone updated item agreeing on
name and method. -/
def find_matching_item (orig : JVal) (updated : List JVal) : Option JVal :=
  updated.find?
    (fun u =>
      !is_injection_request u && !is_clone u &&
      nameStr orig == nameStr u && methodValD orig == methodValD u)

mutual
/-- `merge_recursive` of `merge_collection_items`, per item: preserve injection
folders and injection requests, recurse into other folders, replace matched
requests, keep everything else. -/
def mergeItem (allU : List JVal) (i : JVal) : JVal :=
  match hf : jget i "item" with
  | some (.arr xs) =>
      if strContains (pyLower (nameStr i)) "injection" then i
      else setItems i (merge_recursive allU xs)
  | _ =>
      if hasRequest i then
        if is_injection_request i then i
        else
          match find_matching_item i allU with
          | some u => u
          | none => i
      else i
termination_by sizeOf i
decreasing_by
  have h2 := jget_sizeOf_lt hf
  have h3 : sizeOf xs < sizeOf (JVal.arr xs) := by
    simp only [JVal.arr.sizeOf_spec]
    omega
  omega

/-- `merge_recursive` over a list of original items. -/
def merge_recursive (allU : List JVal) (orig : List JVal) : List JVal :=
  match orig with
  | [] => []
  | i :: rest => mergeItem allU i :: merge_recursive allU rest
termination_by sizeOf orig
decreasing_by
  · simp only [List.cons.sizeOf_spec]
    omega
  · simp only [List.cons.sizeOf_spec]
    omega
end

/-- The tracking fields stripped by `clean_item`. -/
def trackingFields : List String :=
  ["id", "path", "originalIndex", "parentPath", "parentFolderName", "folderReference"]

/-- `clean_item`: drop internal bookkeeping keys. -/
def clean_item (i : JVal) : JVal :=
  match i with
  | .obj kvs => .obj (kvs.filter (fun kv => !(trackingFields.contains kv.1)))
  | _ => i

/-- The duplicate check of `extract_and_place_clones`: some existing item in the
target folder carries the clone's name and method. -/
def cloneExistsIn (folderItems : List JVal) (c : JVal) : Bool :=
  folderItems.any
    (fun e =>
      nameOrNull e == (jget c "name").getD (.str "") &&
      methodOrNull e == methodValD c)

/-- Functional counterpart of `find_folder_by_name` + in-place mutation: rebuild
the tree with `g` applied to the first folder (in `find_folder_by_name` order)
whose name equals `fname`; `none` when no folder matches. -/
def updateFolderTree (items : List JVal) (fname : JVal) (g : JVal → JVal) :
    Option (List JVal) :=
  match items with
  | [] => none
  | i :: rest =>
      match hm : jget i "item" with
      | some (.arr xs) =>
          if nameOrNull i == fname then some (g i :: rest)
          else
            match updateFolderTree xs fname g with
            | some newKids => some (setItems i newKids :: rest)
            | none =>
                match updateFolderTree rest fname g with
                | some r => some (i :: r)
                | none => none
      | _ =>
          match updateFolderTree rest fname g with
          | some r => some (i :: r)
          | none => none
termination_by sizeOf items
decreasing_by
  · have h2 := jget_sizeOf_lt hm
    have h3 : sizeOf xs < sizeOf (JVal.arr xs) := by
      simp only [JVal.arr.sizeOf_spec]
      omega
    simp
    omega
  · simp
  · simp

/-- The mutation applied to the folder found by `find_folder_by_name`: append
the cleaned clone unless an item with the clone's name and method is already
present. -/
def placeG (c : JVal) (folder : JVal) : JVal :=
  if cloneExistsIn (childItems folder) c then folder
  else setItems folder (childItems folder ++ [clean_item c])

/-- One clone placement of `extract_and_place_clones`: look up the declared
parent folder; append the cleaned clone there unless an item with the same
name and method already exists; fall back to a root append. -/
def placeClone (target : List JVal) (c : JVal) : List JVal :=
  let pfn := (jget c "parentFolderName").getD .null
  if truthy pfn then
    match updateFolderTree target pfn (placeG c) with
    | some newTree => newTree
    | none => target ++ [clean_item c]
  else target ++ [clean_item c]

/-- The clones collected by `extract_and_place_clones`, in traversal order. -/
def collectClones (items : List JVal) : List JVal :=
  match items with
  | [] => []
  | i :: rest =>
      (match hm : jget i "item" with
       | some (.arr xs) => collectClones xs
       | _ => if hasRequest i && is_clone i then [i] else []) ++ collectClones rest
termination_by sizeOf items
decreasing_by
  · have h2 := jget_sizeOf_lt hm
    have h3 : sizeOf xs < sizeOf (JVal.arr xs) := by
      simp only [JVal.arr.sizeOf_spec]
      omega
    simp only [List.cons.sizeOf_spec]
    omega
  · simp only [List.cons.sizeOf_spec]
    omega

/-- `merge_collection_items` from `Backend/app/api/v1/collections.py`: the
depth-first merge followed by clone extraction and placement. -/
def merge_collection_items (original_items updated_items : List JVal) : List JVal :=
  (collectClones updated_items).foldl placeClone
    (merge_recursive (flatten_items updated_items) original_items)

mutual
/-- Embeds `filter_injection_requests` from `Backend/app/api/v1/collections.py`:
drop injection-named nodes, recursively filter folders, and drop folders that
become empty. -/
def filter_injection_requests (item : JVal) : Option JVal :=
  if strContains (pyLower (nameStr item)) "injection" then none
  else
    match hm : jget item "item" with
    | some (.arr xs) =>
        let filtered := filterInjList xs
        if filtered = [] then none else some (setItems item filtered)
    | _ => some item
termination_by sizeOf item
decreasing_by
  have h2 := jget_sizeOf_lt hm
  have h3 : sizeOf xs < sizeOf (JVal.arr xs) := by
    simp only [JVal.arr.sizeOf_spec]
    omega
  omega

/-- The filtering loop over a folder's children. -/
def filterInjList (items : List JVal) : List JVal :=
  match items with
  | [] => []
  | i :: rest =>
      match filter_injection_requests i with
      | some j => j :: filterInjList rest
      | none => filterInjList rest
termination_by sizeOf items
decreasing_by
  all_goals simp only [List.cons.sizeOf_spec]
  all_goals omega
end

mutual
/-- The invariant claimed for the UI view: no node is injection-named and no
folder carries an empty child list. -/
def goodView (i : JVal) : Bool :=
  !(strContains (pyLower (nameStr i)) "injection") &&
    (match hm : jget i "item" with
     | some (.arr xs) => !(xs.isEmpty) && goodViewList xs
     | _ => true)
termination_by sizeOf i
decreasing_by
  have h2 := jget_sizeOf_lt hm
  have h3 : sizeOf xs < sizeOf (JVal.arr xs) := by
    simp only [JVal.arr.sizeOf_spec]
    omega
  omega

/-- `goodView` over a list of nodes. -/
def goodViewList (items : List JVal) : Bool :=
  match items with
  | [] => true
  | i :: rest => goodView i && goodViewList rest
termination_by sizeOf items
decreasing_by
  · simp only [List.cons.sizeOf_spec]
    omega
  · simp only [List.cons.sizeOf_spec]
    omega
end

mutual
/-- Well-formedness of a collection item as the Python code assumes it: the
item is a dict, a `name` value (when present) is a string, a `request` value
(when present) is a dict, and folder children are again well-formed. On inputs
violating this the Python code raises (e.g. `.lower()` on a non-string), so
the claims are stated over well-formed trees. -/
def WFItemB (i : JVal) : Bool :=
  match i with
  | .obj kvs =>
      (match lookupKV kvs "name" with
       | some (.str _) => true
       | some _ => false
       | none => true) &&
      (match lookupKV kvs "request" with
       | some (.obj _) => true
       | some _ => false
       | none => true) &&
      (match hm : lookupKV kvs "item" with
       | some (.arr xs) => WFItemsB xs
       | _ => true)
  | _ => false
termination_by sizeOf i
decreasing_by
  have h2 : jget (JVal.obj kvs) "item" = some (.arr xs) := hm
  have h3 := jget_sizeOf_lt h2
  have h4 : sizeOf xs < sizeOf (JVal.arr xs) := by
    simp only [JVal.arr.sizeOf_spec]
    omega
  omega

/-- `WFItemB` over a list of items. -/
def WFItemsB (items : List JVal) : Bool :=
  match items with
  | [] => true
  | i :: rest => WFItemB i && WFItemsB rest
termination_by sizeOf items
decreasing_by
  · simp only [List.cons.sizeOf_spec]
    omega
  · simp only [List.cons.sizeOf_spec]
    omega
end

/-- Index of the first list element satisfying `p` (the `for idx, item in
enumerate(parent_items)` search loop). -/
def findIdxA (p : JVal → Bool) : List JVal → Option ℕ
  | [] => none
  | x :: xs => if p x then some 0 else (findIdxA p xs).map (· + 1)

/-- The sibling-folder predicate of `generate_filtered_collection`
(`"item" in item and isinstance(item["item"], list) and item.get("name") == folder_name`). -/
def filtering_folder_pred (folder_name : String) (i : JVal) : Bool :=
  isFolderList i && nameOrNull i == JVal.str folder_name

/-- Embeds the folder-replacement tail of `generate_filtered_collection`
(`Backend/app/api/v1/collections.py`): pop the first same-named sibling folder
if any, then append the freshly generated filtering folder. -/
def replace_filtering_folder (parent_items : List JVal) (folder_name : String)
    (generated : List JVal) : List JVal :=
  (match findIdxA (filtering_folder_pred folder_name) parent_items with
   | some k => parent_items.eraseIdx k
   | none => parent_items) ++
  [JVal.obj [("name", .str folder_name), ("item", .arr generated)]]

/-- `FilterCondition` Pydantic model: `attribute`, `condition`, `value`, all strings. -/
structure FilterCondition where
  attrName : String
  condition : String
  value : String

/-- Results of Python `float(...)`: a finite rational, an infinity, or NaN. -/
inductive PyF where
  | fin (q : ℚ) : PyF
  | pinf : PyF
  | ninf : PyF
  | nan : PyF
  deriving DecidableEq, Repr

/-- Python `a < b` on float results (any comparison with NaN is false). -/
def pyLt : PyF → PyF → Bool
  | .nan, _ => false
  | _, .nan => false
  | .fin a, .fin b => a < b
  | .fin _, .pinf => true
  | .fin _, .ninf => false
  | .pinf, _ => false
  | .ninf, .ninf => false
  | .ninf, _ => true

/-- Python `a == b` on float results (NaN equals nothing). -/
def pyEqF : PyF → PyF → Bool
  | .fin a, .fin b => a == b
  | .pinf, .pinf => true
  | .ninf, .ninf => true
  | _, _ => false

/-- Python `a > b` on float results. -/
def pyGt (a b : PyF) : Bool := pyLt b a

/-- Python `a >= b` on float results. -/
def pyGe (a b : PyF) : Bool := pyLt b a || pyEqF a b

/-- Python `a <= b` on float results. -/
def pyLe (a b : PyF) : Bool := pyLt a b || pyEqF a b

/-- ASCII whitespace stripped by Python's float parser. -/
def isPySpace (c : Char) : Bool :=
  c = ' ' || c = '\t' || c = '\n' || c = '\x0d' || c = '\x0b' || c = '\x0c'

/-- Numeric value of a digit run. -/
def digitsVal (ds : List Char) : ℕ := ds.foldl (fun a c => a * 10 + (c.toNat - 48)) 0

/-- Continue a digit run already opened by a digit: a further digit extends it,
and an underscore is consumed only when a digit follows immediately (CPython
allows `_` in numeric literals strictly between digits); any other underscore
is left in the remainder, where the literal parser rejects it as junk. -/
def digitsUndGo : List Char → List Char × List Char
  | [] => ([], [])
  | '_' :: d :: rest' =>
      if d.isDigit then
        let p := digitsUndGo rest'
        (d :: p.1, p.2)
      else ([], '_' :: d :: rest')
  | '_' :: [] => ([], ['_'])
  | c :: rest =>
      if c.isDigit then
        let p := digitsUndGo rest
        (c :: p.1, p.2)
      else ([], c :: rest)

/-- Consume a Python digit run `digit (["_"] digit)*`, returning the digits
(underscore separators dropped) and the rest of the input. The run must open
with a digit: a leading underscore is not consumed (CPython rejects `_1`,
`._5`, `1e_5` with `ValueError`). -/
def digitsUnd : List Char → List Char × List Char
  | [] => ([], [])
  | c :: rest =>
      if c.isDigit then
        let p := digitsUndGo rest
        (c :: p.1, p.2)
      else ([], c :: rest)

/-- Parse the mantissa-and-exponent part of a Python float literal (no sign,
no surrounding whitespace): `digitpart ["." [digitpart]] | "." digitpart`,
then an optional exponent. Returns the value only when the whole input is
consumed. -/
def parseFinite (cs : List Char) : Option ℚ :=
  let ip := digitsUnd cs
  let intDs := ip.1
  let afterInt := ip.2
  let fp : List Char × List Char :=
    match afterInt with
    | '.' :: rest => digitsUnd rest
    | _ => ([], afterInt)
  let fracDs := fp.1
  let afterFrac := if afterInt.head? = some '.' then fp.2 else afterInt
  if intDs = [] ∧ fracDs = [] ∧ afterInt.head? ≠ some '.' then none
  else if intDs = [] ∧ afterInt.head? = some '.' ∧ fracDs = [] ∧ intDs = [] then
    -- "." alone (or "." followed by junk) is invalid without any digits
    none
  else
    let mant : ℚ := (digitsVal intDs : ℚ) + (digitsVal fracDs : ℚ) / ((10 : ℚ) ^ fracDs.length)
    match afterFrac with
    | [] => some mant
    | e :: rest =>
        if e = 'e' ∨ e = 'E' then
          let sp : Bool × List Char :=
            match rest with
            | '+' :: r => (true, r)
            | '-' :: r => (false, r)
            | r => (true, r)
          let ep := digitsUnd sp.2
          if ep.1 = [] ∨ ep.2 ≠ [] then none
          else
            let ex : ℤ := if sp.1 then (digitsVal ep.1 : ℤ) else -(digitsVal ep.1 : ℤ)
            some (mant * (10 : ℚ) ^ ex)
        else none

/-- Python `float(s)` on a string: optional whitespace and sign, then
`inf`/`infinity`/`nan` (case-insensitive) or a numeric literal; `none` models
the `ValueError` branch. -/
def pyFloatOfChars (cs : List Char) : Option PyF :=
  let trimmed := (cs.dropWhile isPySpace).reverse.dropWhile isPySpace |>.reverse
  let sp : Bool × List Char :=
    match trimmed with
    | '+' :: r => (true, r)
    | '-' :: r => (false, r)
    | r => (true, r)
  let pos := sp.1
  let body := sp.2
  let low := body.map Char.toLower
  if low = "inf".data ∨ low = "infinity".data then some (if pos then .pinf else .ninf)
  else if low = "nan".data then some .nan
  else
    match parseFinite body with
    | some q => some (.fin (if pos then q else -q))
    | none => none

/-- Python `float(s)` on a string value. -/
def pyFloatOfStr (s : String) : Option PyF := pyFloatOfChars s.data

/-- CPython `float(n)` on an arbitrary-precision int rounds to nearest-even
double and raises `OverflowError` when the result would be infinite, which
happens exactly when `|n| ≥ 2^1024 - 2^970` (the halfway point between the
largest finite double and `2^1024` rounds up to infinity). -/
def intOverflows (n : ℤ) : Bool := 2 ^ 1024 - 2 ^ 970 ≤ n.natAbs

/-- Outcome of Python `float(value)`: a value, an error the call sites catch
(`ValueError`/`TypeError`), or an error they do not (`OverflowError`). -/
inductive FloatRes where
  | ok (f : PyF) : FloatRes
  | caught : FloatRes
  | uncaught : FloatRes
  deriving DecidableEq, Repr

/-- Python `float(value)` on a JSON value: floats and booleans convert,
ints convert unless they exceed double range (`OverflowError`, uncaught by
the `except (ValueError, TypeError)` handlers), strings parse with
`ValueError` on failure, everything else raises `TypeError`. -/
def pyFloat (v : JVal) : FloatRes :=
  match v with
  | .int n => if intOverflows n then .uncaught else .ok (.fin n)
  | .float q => .ok (.fin q)
  | .bool b => .ok (.fin (if b then 1 else 0))
  | .str s =>
      match pyFloatOfStr s with
      | some f => .ok f
      | none => .caught
  | _ => .caught

/-- `isinstance(value, (str, int, float))`; Python's `bool` is a subclass of
`int`, so booleans pass the check. -/
def isStrIntFloatB (v : JVal) : Bool :=
  match v with
  | .str _ => true
  | .int _ => true
  | .float _ => true
  | .bool _ => true
  | _ => false

mutual
/-- Python `str(value)` on a JSON value. Container and float rendering
approximates CPython's (quote style and float repr differ in corner cases);
no settled claim depends on those renderings. -/
def pyStr (v : JVal) : String :=
  match v with
  | .str s => s
  | .int n => toString n
  | .bool b => if b then "True" else "False"
  | .null => "None"
  | .float q => toString q
  | .arr xs => "[" ++ pyStrList xs ++ "]"
  | .obj kvs => "\x7b" ++ pyStrPairs kvs ++ "\x7d"

/-- Comma-joined reprs of array elements (strings quoted, as Python repr does). -/
def pyStrList : List JVal → String
  | [] => ""
  | [.str s] => "\x27" ++ s ++ "\x27"
  | [x] => pyStr x
  | .str s :: rest => "\x27" ++ s ++ "\x27" ++ ", " ++ pyStrList rest
  | x :: rest => pyStr x ++ ", " ++ pyStrList rest

/-- Comma-joined reprs of object entries (strings quoted, as Python repr does). -/
def pyStrPairs : List (String × JVal) → String
  | [] => ""
  | [(k, .str s)] => "\x27" ++ k ++ "\x27: " ++ "\x27" ++ s ++ "\x27"
  | [(k, v)] => "\x27" ++ k ++ "\x27: " ++ pyStr v
  | (k, .str s) :: rest =>
      "\x27" ++ k ++ "\x27: " ++ "\x27" ++ s ++ "\x27" ++ ", " ++ pyStrPairs rest
  | (k, v) :: rest => "\x27" ++ k ++ "\x27: " ++ pyStr v ++ ", " ++ pyStrPairs rest
end

/-- Embeds `apply_filter_condition` from `Backend/app/api/v1/collections.py`:
string-compare for EQ/NEQ/Contains/NotContains, float-compare for
GT/LT/GTE/LTE under `try/except (ValueError, TypeError)`. `float(value)` runs
first: its `OverflowError` on an out-of-double-range int escapes the handler,
modelled as `none`; a caught error on either side yields `some false`. -/
def apply_filter_condition (value : JVal) (c : FilterCondition) : Option Bool :=
  let attr_value := if isStrIntFloatB value then pyLower (pyStr value) else pyStr value
  let filter_value := pyLower c.value
  if c.condition = "EQ" then some (attr_value == filter_value)
  else if c.condition = "NEQ" then some (!(attr_value == filter_value))
  else if c.condition = "Contains" then some (strContains attr_value filter_value)
  else if c.condition = "NotContains" then some (!(strContains attr_value filter_value))
  else if c.condition = "GT" then
    match pyFloat value, pyFloatOfStr c.value with
    | .uncaught, _ => none
    | .ok a, some b => some (pyGt a b)
    | _, _ => some false
  else if c.condition = "LT" then
    match pyFloat value, pyFloatOfStr c.value with
    | .uncaught, _ => none
    | .ok a, some b => some (pyLt a b)
    | _, _ => some false
  else if c.condition = "GTE" then
    match pyFloat value, pyFloatOfStr c.value with
    | .uncaught, _ => none
    | .ok a, some b => some (pyGe a b)
    | _, _ => some false
  else if c.condition = "LTE" then
    match pyFloat value, pyFloatOfStr c.value with
    | .uncaught, _ => none
    | .ok a, some b => some (pyLe a b)
    | _, _ => some false
  else some false

/-- `SecurityTestService.is_string_field`: `isinstance(value, str)`. -/
def is_string_field (v : JVal) : Bool :=
  match v with
  | .str _ => true
  | _ => false

/-- `SecurityTestService.XSS_PAYLOADS[0]`, the payload used for every field in
automatic generation. -/
def xssPayload0 : String := "<script>alert(\x27XSS\x27)</script>"

mutual
/-- Embeds `extract_nested_string_fields` from
`Backend/app/api/v1/conversions.py`: collect the dotted paths of string-valued
fields, recursing into nested objects (depth-bounded) and into the first
element of arrays. -/
def extract_nested_string_fields (data : JVal) (pre : String)
    (max_depth current_depth : ℕ) : List String :=
  if current_depth ≥ max_depth then []
  else
    match data with
    | .obj kvs => ensfPairs kvs pre max_depth current_depth
    | .arr (x :: _) =>
        match x with
        | .obj kvs2 =>
            extract_nested_string_fields (.obj kvs2) pre max_depth current_depth
        | _ =>
            if is_string_field x then (if pre ≠ "" then [pre] else []) else []
    | _ => []
termination_by sizeOf data
decreasing_by
  all_goals simp only [JVal.arr.sizeOf_spec, JVal.obj.sizeOf_spec, List.cons.sizeOf_spec]
  all_goals omega

/-- The `for key, value in data.items()` loop of `extract_nested_string_fields`. -/
def ensfPairs (kvs : List (String × JVal)) (pre : String)
    (max_depth current_depth : ℕ) : List String :=
  match kvs with
  | [] => []
  | (key, value) :: rest =>
      let full_path := dotKey pre key
      (match value with
       | .obj kvs2 =>
           extract_nested_string_fields (.obj kvs2) full_path max_depth (current_depth + 1)
       | .arr (x :: _) =>
           match x with
           | .obj kvs2 =>
               extract_nested_string_fields (.obj kvs2) full_path max_depth
                 (current_depth + 1)
           | _ => if is_string_field x then [full_path] else []
       | _ => if is_string_field value then [full_path] else []) ++
      ensfPairs rest pre max_depth current_depth
termination_by sizeOf kvs
decreasing_by
  · simp only [List.cons.sizeOf_spec, Prod.mk.sizeOf_spec, JVal.obj.sizeOf_spec]
    omega
  · simp only [List.cons.sizeOf_spec, Prod.mk.sizeOf_spec, JVal.obj.sizeOf_spec,
      JVal.arr.sizeOf_spec]
    omega
  · simp only [List.cons.sizeOf_spec]
    omega
end

/-- Split a dotted path on `'.'` (Python `path.split(".")`). -/
def splitOnDot (cs : List Char) : List String :=
  match cs with
  | [] => [""]
  | c :: rest =>
      if c = '.' then "" :: splitOnDot rest
      else
        match splitOnDot rest with
        | [] => [String.mk [c]]
        | s :: tl => String.mk (c :: s.data) :: tl

/-- `current[k] = v` on a JSON object. -/
def insertObj (d : JVal) (k : String) (v : JVal) : JVal :=
  match d with
  | .obj kvs => .obj (insertKV kvs k v)
  | _ => d

/-- The descent loop of `set_nested_value`: walk the path parts, replacing
absent or non-dict intermediates with fresh dicts, then set the final key. -/
def setParts (data : JVal) (parts : List String) (value : JVal) : JVal :=
  match parts with
  | [] => data
  | [last] => insertObj data last value
  | p :: rest =>
      let child :=
        match jget data p with
        | some (.obj kvs) => JVal.obj kvs
        | _ => JVal.obj []
      insertObj data p (setParts child rest value)

/-- Embeds `set_nested_value` from `Backend/app/api/v1/conversions.py`. -/
def set_nested_value (data : JVal) (path : String) (value : JVal) : JVal :=
  if path = "" then data
  else
    match data with
    | .obj _ => setParts data (splitOnDot path.data) value
    | _ => data

/-- The XSS variant loop of `convert_swagger_to_postman`
(`Backend/app/api/v1/conversions.py`): one request body per extracted string
field, with exactly that field overwritten by the first XSS payload. -/
def xss_variant_bodies (body_data : JVal) : List JVal :=
  (extract_nested_string_fields body_data "" 10 0).map
    (fun fp => set_nested_value body_data fp (.str xssPayload0))

/-- The `$ref` prefix accepted by `resolve_schema_reference`. -/
def refPrefix : List Char := "#/components/schemas/".data

/-- Python `s.replace(needle, repl)` (all occurrences, left to right). -/
def replaceAllSub (needle repl : List Char) (cs : List Char) : List Char :=
  match cs with
  | [] => []
  | c :: rest =>
      if needle ≠ [] ∧ needle.isPrefixOf (c :: rest) then
        repl ++ replaceAllSub needle repl (rest.drop (needle.length - 1))
      else c :: replaceAllSub needle repl rest
termination_by cs.length
decreasing_by
  · simp only [List.length_cons, List.length_drop]
    omega
  · simp only [List.length_cons]
    omega

/-- Embeds `resolve_schema_reference` from `Backend/app/api/v1/conversions.py`:
only `#/components/schemas/<Name>` refs resolve; anything else yields `{}`.
A non-string ref would raise in Python and is modelled as the soft `{}`. -/
def resolve_schema_reference (swagger ref : JVal) : JVal :=
  match ref with
  | .str s =>
      if refPrefix.isPrefixOf s.data then
        let schema_name := String.mk (replaceAllSub refPrefix [] s.data)
        let components := (jget swagger "components").getD (.obj [])
        let schemas := (jget components "schemas").getD (.obj [])
        (jget schemas schema_name).getD (.obj [])
      else .obj []
  | _ => .obj []

/-- The string-typed fallback of `generate_example_from_schema`: first enum
entry if the enum is a non-empty list, else the `"{{value}}"` placeholder. -/
def stringFallback (schema1 : JVal) : JVal :=
  match jget schema1 "enum" with
  | some (.arr (x :: _)) => x
  | _ => .str "\x7b\x7bvalue\x7d\x7d"

mutual
/-- Embeds `generate_example_from_schema` from
`Backend/app/api/v1/conversions.py`. The Python recursion is unbounded (no
`$ref` cycle guard), so the embedding takes a fuel parameter that drops by one
per nesting level; on acyclic schemas any fuel at least the schema nesting
depth reproduces the source. `nowS`/`todayS` stand for
`datetime.now().isoformat()` / `date.today().isoformat()`. -/
def generate_example_from_schema (fuel : ℕ) (nowS todayS : String)
    (swagger schema : JVal) : JVal :=
  match fuel with
  | 0 => .obj []
  | f + 1 =>
      if !(truthy schema) then .obj []
      else
        let schema1 :=
          match jget schema "$ref" with
          | some r => resolve_schema_reference swagger r
          | none => schema
        let schema_type := (jget schema1 "type").getD (.str "object")
        if schema_type = .str "object" then
          let props :=
            match jget schema1 "properties" with
            | some (.obj kvs) => kvs
            | _ => []
          let required :=
            match jget schema1 "required" with
            | some (.arr xs) => xs
            | _ => []
          .obj (genProps f nowS todayS swagger required props)
        else if schema_type = .str "array" then
          let items := (jget schema1 "items").getD (.obj [])
          if truthy items then
            let item_example := generate_example_from_schema f nowS todayS swagger items
            if truthy item_example then .arr [item_example] else .arr []
          else .arr []
        else if schema_type = .str "string" then
          match jget schema1 "example" with
          | some v => if v = .null then stringFallback schema1 else v
          | none => stringFallback schema1
        else if schema_type = .str "integer" then
          (jget schema1 "example").getD ((jget schema1 "default").getD (.int 0))
        else if schema_type = .str "number" then
          (jget schema1 "example").getD ((jget schema1 "default").getD (.float 0))
        else if schema_type = .str "boolean" then
          (jget schema1 "example").getD ((jget schema1 "default").getD (.bool true))
        else .obj []
termination_by (fuel, 0)

/-- The per-property loop of `generate_example_from_schema`'s object branch:
date formats render example/default/now, then explicit example, then default,
then (for required properties, or when nothing is required) type-directed
synthesis; other properties are skipped. -/
def genProps (f : ℕ) (nowS todayS : String) (swagger : JVal)
    (required : List JVal) (props : List (String × JVal)) : List (String × JVal) :=
  match props with
  | [] => []
  | (prop_name, prop_schema0) :: rest =>
      let ps :=
        match jget prop_schema0 "$ref" with
        | some r => resolve_schema_reference swagger r
        | none => prop_schema0
      let prop_type := (jget ps "type").getD (.str "string")
      let prop_format := (jget ps "format").getD (.str "")
      let ex :=
        match jget ps "example" with
        | some .null => none
        | some v => some v
        | none => none
      let df :=
        match jget ps "default" with
        | some .null => none
        | some v => some v
        | none => none
      let entry : Option JVal :=
        if prop_format = .str "date-time" ∨ prop_format = .str "datetime" then
          some (match ex with
                | some v => .str (pyStr v)
                | none =>
                    match df with
                    | some v => .str (pyStr v)
                    | none => .str nowS)
        else if prop_format = .str "date" then
          some (match ex with
                | some v => .str (pyStr v)
                | none =>
                    match df with
                    | some v => .str (pyStr v)
                    | none => .str todayS)
        else
          match ex with
          | some v => some v
          | none =>
              match df with
              | some v => some v
              | none =>
                  if required.contains (.str prop_name) || required.isEmpty then
                    some
                      (if prop_type = .str "string" then
                        .str ("\x7b\x7b" ++ prop_name ++ "\x7d\x7d")
                      else if prop_type = .str "integer" then .int 0
                      else if prop_type = .str "number" then .float 0
                      else if prop_type = .str "boolean" then .bool true
                      else if prop_type = .str "array" then
                        let items := (jget ps "items").getD (.obj [])
                        if truthy items then
                          let ie := generate_example_from_schema f nowS todayS swagger items
                          if truthy ie then .arr [ie] else .arr []
                        else .arr []
                      else if prop_type = .str "object" then
                        generate_example_from_schema f nowS todayS swagger ps
                      else .str ("\x7b\x7b" ++ prop_name ++ "\x7d\x7d"))
                  else none
      match entry with
      | some v => (prop_name, v) :: genProps f nowS todayS swagger required rest
      | none => genProps f nowS todayS swagger required rest
termination_by (f, props.length + 1)
end

/-- The anchored regex `\x7b\x7b([^}]+)\x7d\x7d` of `_parse_host`: when the
input starts with `\x7b\x7b`, then a non-empty run of non-`\x7d` characters,
then `\x7d\x7d`, return the variable name and the rest of the input. -/
def matchVarAt (cs : List Char) : Option (List Char × List Char) :=
  if cs.take 2 = ['\x7b', '\x7b'] then
    let rest := cs.drop 2
    let v := rest.takeWhile (fun c => c ≠ '\x7d')
    let after := rest.drop v.length
    if v ≠ [] ∧ after.take 2 = ['\x7d', '\x7d'] then some (v, after.drop 2)
    else none
  else none

theorem takeWhile_length_le' (p : Char → Bool) (l : List Char) :
    (l.takeWhile p).length ≤ l.length := by
  induction l with
  | nil => simp
  | cons c rest ih =>
    by_cases h : p c
    · simp [List.takeWhile_cons, h]
      omega
    · simp [List.takeWhile_cons, h]

theorem matchVarAt_length {cs v tail : List Char}
    (h : matchVarAt cs = some (v, tail)) : tail.length < cs.length := by
  simp only [matchVarAt] at h
  by_cases h1 : cs.take 2 = ['\x7b', '\x7b']
  · rw [if_pos h1] at h
    set rest := cs.drop 2 with hrest
    set w := rest.takeWhile (fun c => c ≠ '\x7d') with hw
    by_cases h2 : w ≠ [] ∧ (rest.drop w.length).take 2 = ['\x7d', '\x7d']
    · rw [if_pos h2] at h
      simp only [Option.some.injEq, Prod.mk.injEq] at h
      obtain ⟨hv, htail⟩ := h
      have hcs2 : 2 ≤ cs.length := by
        have := congrArg List.length h1
        simp at this
        omega
      have hwlen : w.length ≤ rest.length := by
        rw [hw]
        exact takeWhile_length_le' _ _
      have hafter2 : 2 ≤ (rest.drop w.length).length := by
        have hh := h2.2
        rcases hd : rest.drop w.length with _ | ⟨x, _ | ⟨y, tl⟩⟩
        · rw [hd] at hh
          simp at hh
        · rw [hd] at hh
          simp at hh
        · simp [hd]
      have hrlen : rest.length = cs.length - 2 := by
        rw [hrest]
        simp
      have htl : tail.length = (rest.drop w.length).length - 2 := by
        rw [← htail]
        simp
        omega
      have hdl : (rest.drop w.length).length = rest.length - w.length := by simp
      have hwpos : 0 < w.length := List.length_pos.mpr h2.1
      omega
    · rw [if_neg h2] at h
      exact absurd h (by simp)
  · rw [if_neg h1] at h
    exact absurd h (by simp)


/-- `re.sub(r'\x7b\x7b[^}]+\x7d\x7d', 'placeholder', url)`: replace every
variable token with the sentinel, scanning left to right. -/
def substVars (cs : List Char) : List Char :=
  match cs with
  | [] => []
  | c :: rest =>
      match hm : matchVarAt (c :: rest) with
      | some p => "placeholder".data ++ substVars p.2
      | none => c :: substVars rest
termination_by cs.length
decreasing_by
  · have := matchVarAt_length hm
    simp only [List.length_cons] at this ⊢
    omega
  · simp only [List.length_cons]
    omega

/-- A character allowed in a URL scheme (`urllib.parse`): letters, digits,
`+`, `-`, `.`. -/
def isSchemeChar (c : Char) : Bool := c.isAlphanum || c = '+' || c = '-' || c = '.'

/-- Drop a leading `scheme:` as `urllib.parse.urlparse` does: the part before
the first `:` counts as a scheme when it is non-empty, starts with a letter
and contains only scheme characters. -/
def schemeSplit (cs : List Char) : List Char :=
  let run := cs.takeWhile isSchemeChar
  match h : cs.drop run.length with
  | ':' :: rest =>
      match run with
      | c0 :: _ => if c0.isAlpha then rest else cs
      | [] => cs
  | _ => cs

/-- The `netloc` of `urllib.parse.urlparse`: present only when (after any
scheme) the string starts with `//`; it then extends to the next `/`, `?`
or `#`. -/
def urlparseNetloc (cs : List Char) : List Char :=
  let rest := schemeSplit cs
  match rest with
  | '/' :: '/' :: tail => tail.takeWhile (fun c => c ≠ '/' && c ≠ '?' && c ≠ '#')
  | _ => []

/-- Embeds `_parse_host` from
`Backend/app/infrastructure/builders/postman_collection_builder.py`: a URL
that starts with a `\x7b\x7bvar\x7d\x7d` token whose name is `baseUrl` or
contains `url` is answered directly; otherwise variables are replaced by a
sentinel, the result is parsed generically, and sentinel-only or absent
netlocs yield `[]`. -/
def parse_host (url : List Char) : List (List Char) :=
  let special : Option (List (List Char)) :=
    if ['\x7b', '\x7b'].isPrefixOf url ∧ containsSub ['\x7d', '\x7d'] url then
      match matchVarAt url with
      | some p =>
          if p.1 = "baseUrl".data ∨ containsSub "url".data (p.1.map Char.toLower) then
            some [['\x7b', '\x7b'] ++ p.1 ++ ['\x7d', '\x7d']]
          else none
      | none => none
    else none
  match special with
  | some r => r
  | none =>
      let temp := substVars url
      let netloc := urlparseNetloc temp
      if netloc ≠ [] ∧ netloc ≠ "placeholder".data then [netloc]
      else if containsSub ['\x7b', '\x7b'] url then []
      else []

theorem jbeq_refl (a : JVal) : jbeq a a = true := (jbeq_iff a a).mpr rfl

theorem jval_beq_def (a b : JVal) : (a == b) = jbeq a b := rfl

/-- C8: `extract_flat_attributes` on `{"a":{"b":1},"c":[{"d":"x"}]}` yields
exactly the two entries `a.b ↦ {value:1,type:"number",path:"a.b"}` and
`c.d ↦ {value:"x",type:"string",path:"c.d"}`; arrays are sampled at their
first element only, and leaves are typed by runtime tag (bool → "boolean",
int/float → "number", else "string"). -/
theorem c8_attribute_flattening :
    (extract_flat_attributes
        (.obj [("a", .obj [("b", .int 1)]), ("c", .arr [.obj [("d", .str "x")]])]) "" =
      [("a.b", .obj [("value", .int 1), ("type", .str "number"), ("path", .str "a.b")]),
       ("c.d", .obj [("value", .str "x"), ("type", .str "string"), ("path", .str "c.d")])]) ∧
    (∀ (kvs : List (String × JVal)) (xs : List JVal) (p : String),
      extract_flat_attributes (.arr (.obj kvs :: xs)) p =
        extract_flat_attributes (.obj kvs) p) ∧
    (∀ (k : String) (b : Bool),
      extract_flat_attributes (.obj [(k, .bool b)]) "" =
        [(k, .obj [("value", .bool b), ("type", .str "boolean"), ("path", .str k)])]) ∧
    (∀ (k : String) (n : ℤ),
      extract_flat_attributes (.obj [(k, .int n)]) "" =
        [(k, .obj [("value", .int n), ("type", .str "number"), ("path", .str k)])]) ∧
    (∀ (k : String) (q : ℚ),
      extract_flat_attributes (.obj [(k, .float q)]) "" =
        [(k, .obj [("value", .float q), ("type", .str "number"), ("path", .str k)])]) ∧
    (∀ (k s : String),
      extract_flat_attributes (.obj [(k, .str s)]) "" =
        [(k, .obj [("value", .str s), ("type", .str "string"), ("path", .str k)])]) := by
  refine ⟨?_, ?_, ?_, ?_, ?_, ?_⟩
  · simp [extract_flat_attributes, extractFlatPairs, updateKV, insertKV, dotKey, leafType]
  · intro kvs xs p
    simp [extract_flat_attributes]
  · intro k b
    simp [extract_flat_attributes, extractFlatPairs, insertKV, dotKey, leafType]
  · intro k n
    simp [extract_flat_attributes, extractFlatPairs, insertKV, dotKey, leafType]
  · intro k q
    simp [extract_flat_attributes, extractFlatPairs, insertKV, dotKey, leafType]
  · intro k s
    simp [extract_flat_attributes, extractFlatPairs, insertKV, dotKey, leafType]

/-- C9 counterexample: `apply_filter_condition` does NOT always avoid raising
on a numeric condition — a JSON integer beyond double range (here `10^400`)
makes `float(value)` raise `OverflowError`, which the
`except (ValueError, TypeError)` handler does not catch, so the call raises
instead of returning `False`. -/
theorem c9_condition_application_counterexample :
    intOverflows (Int.ofNat (10 ^ 400)) = true ∧
    apply_filter_condition (.int (Int.ofNat (10 ^ 400))) ⟨"attr", "GT", "abc"⟩ =
      none := by
  exact ⟨by decide, by decide⟩

/-- C9 (amended): with a numeric condition (GT/LT/GTE/LTE),
`apply_filter_condition` propagates exactly one exception: the
`OverflowError` raised by `float(value)` on an integer beyond double range,
which escapes the `except (ValueError, TypeError)` handler. Whenever the
value does not overflow, the call never raises, and it returns `False`
whenever either side of the comparison fails `float(...)` with a caught
`ValueError`/`TypeError`; in particular `applyCondition(5, GT, "abc")` is
`False`. -/
theorem c9_condition_application_amended :
    (∀ (value : JVal) (c : FilterCondition),
      (c.condition = "GT" ∨ c.condition = "LT" ∨ c.condition = "GTE" ∨
        c.condition = "LTE") →
      pyFloat value = .uncaught → apply_filter_condition value c = none) ∧
    (∀ (value : JVal) (c : FilterCondition),
      (c.condition = "GT" ∨ c.condition = "LT" ∨ c.condition = "GTE" ∨
        c.condition = "LTE") →
      pyFloat value ≠ .uncaught →
      (apply_filter_condition value c).isSome = true) ∧
    (∀ (value : JVal) (c : FilterCondition),
      (c.condition = "GT" ∨ c.condition = "LT" ∨ c.condition = "GTE" ∨
        c.condition = "LTE") →
      pyFloat value = .caught ∨
        (pyFloat value ≠ .uncaught ∧ pyFloatOfStr c.value = none) →
      apply_filter_condition value c = some false) ∧
    apply_filter_condition (.int 5) ⟨"attr", "GT", "abc"⟩ = some false := by
  refine ⟨?_, ?_, ?_, by decide⟩
  · intro value c hcond hpf
    obtain ⟨a, cc, v⟩ := c
    simp only at hcond hpf
    rcases hcond with h | h | h | h <;> subst h <;>
      simp [apply_filter_condition, hpf]
  · intro value c hcond hne
    obtain ⟨a, cc, v⟩ := c
    simp only at hcond hne
    rcases hcond with h | h | h | h <;> subst h <;>
      rcases hpf : pyFloat value with f | _ | _ <;>
      rcases hps : pyFloatOfStr v with _ | b <;>
        first
        | exact absurd hpf hne
        | simp [apply_filter_condition, hpf, hps]
  · intro value c hcond hyp
    obtain ⟨a, cc, v⟩ := c
    simp only at hcond hyp
    rcases hcond with h | h | h | h <;> subst h <;>
      rcases hyp with h2 | ⟨h2, h3⟩ <;>
      rcases hpf : pyFloat value with f | _ | _ <;>
      rcases hps : pyFloatOfStr v with _ | b <;>
        simp_all [apply_filter_condition]

theorem c9_condition_application_amended_witness :
    apply_filter_condition (.int (Int.ofNat (2 ^ 1100))) ⟨"attr", "LT", "3"⟩ =
      none ∧
    (apply_filter_condition (.int 5) ⟨"attr", "GT", "abc"⟩).isSome = true ∧
    apply_filter_condition (.str "zzz") ⟨"attr", "LTE", "3"⟩ = some false := by
  refine ⟨?_, ?_, ?_⟩
  · exact c9_condition_application_amended.1 (.int (Int.ofNat (2 ^ 1100)))
      ⟨"attr", "LT", "3"⟩ (Or.inr (Or.inl rfl)) (by decide)
  · exact c9_condition_application_amended.2.1 (.int 5) ⟨"attr", "GT", "abc"⟩
      (Or.inl rfl) (by decide)
  · exact c9_condition_application_amended.2.2.1 (.str "zzz") ⟨"attr", "LTE", "3"⟩
      (Or.inr (Or.inr (Or.inr rfl))) (Or.inl (by decide))

theorem lookupKV_map_item (kvs : List (String × JVal)) (l : List JVal) :
    lookupKV (kvs.map (fun kv => if kv.1 = "item" then (kv.1, JVal.arr l) else kv))
        "item" =
      (lookupKV kvs "item").map (fun _ => JVal.arr l) := by
  induction kvs with
  | nil => simp [lookupKV]
  | cons p rest ih =>
    obtain ⟨k', v⟩ := p
    simp only [List.map_cons]
    by_cases h1 : k' = "item"
    · subst h1
      rw [if_pos rfl]
      rw [lookupKV, lookupKV]
      simp
    · rw [if_neg h1]
      rw [lookupKV, lookupKV]
      simp [h1, ih]

theorem lookupKV_map_ne (kvs : List (String × JVal)) (l : List JVal) {k : String}
    (hk : k ≠ "item") :
    lookupKV (kvs.map (fun kv => if kv.1 = "item" then (kv.1, JVal.arr l) else kv)) k =
      lookupKV kvs k := by
  induction kvs with
  | nil => simp [lookupKV]
  | cons p rest ih =>
    obtain ⟨k', v⟩ := p
    simp only [List.map_cons]
    by_cases h1 : k' = "item"
    · subst h1
      have h2 : ¬("item" = k) := fun hh => hk hh.symm
      rw [if_pos rfl]
      rw [lookupKV, lookupKV]
      simp [h2, ih]
    · rw [if_neg h1]
      rw [lookupKV, lookupKV]
      by_cases h2 : k' = k
      · simp [h2]
      · simp [h2, ih]

theorem jget_setItems_item {i : JVal} {w : JVal} (l : List JVal)
    (h : jget i "item" = some w) : jget (setItems i l) "item" = some (.arr l) := by
  match i with
  | .obj kvs =>
    simp only [jget, setItems] at h ⊢
    rw [lookupKV_map_item]
    simp [h]
  | .null | .bool _ | .int _ | .float _ | .str _ | .arr _ => simp [jget] at h

theorem jget_setItems_ne (i : JVal) (l : List JVal) {k : String} (hk : k ≠ "item") :
    jget (setItems i l) k = jget i k := by
  match i with
  | .obj kvs =>
    simp only [jget, setItems]
    rw [lookupKV_map_ne]
    exact hk
  | .null | .bool _ | .int _ | .float _ | .str _ | .arr _ => simp [setItems]

theorem nameStr_setItems (i : JVal) (l : List JVal) :
    nameStr (setItems i l) = nameStr i := by
  simp [nameStr, jget_setItems_ne i l (by decide : "name" ≠ "item")]

theorem nameOrNull_setItems (i : JVal) (l : List JVal) :
    nameOrNull (setItems i l) = nameOrNull i := by
  simp [nameOrNull, jget_setItems_ne i l (by decide : "name" ≠ "item")]

theorem hasRequest_setItems (i : JVal) (l : List JVal) :
    hasRequest (setItems i l) = hasRequest i := by
  simp [hasRequest, jget_setItems_ne i l (by decide : "request" ≠ "item")]

theorem methodOrNull_setItems (i : JVal) (l : List JVal) :
    methodOrNull (setItems i l) = methodOrNull i := by
  simp [methodOrNull, jget_setItems_ne i l (by decide : "request" ≠ "item")]

theorem goodViewList_eq_all (items : List JVal) :
    goodViewList items = items.all goodView := by
  induction items with
  | nil => simp [goodViewList]
  | cons i rest ih => simp [goodViewList, ih]

theorem filter_good_aux : ∀ n : ℕ,
    (∀ i j, sizeOf i ≤ n → filter_injection_requests i = some j → goodView j = true) ∧
    (∀ items : List JVal, sizeOf items ≤ n →
      goodViewList (filterInjList items) = true) := by
  intro n
  induction n using Nat.strong_induction_on with
  | _ n ih =>
    constructor
    · intro i j hsz h
      rw [filter_injection_requests] at h
      by_cases hname : strContains (pyLower (nameStr i)) "injection" = true
      · simp [hname] at h
      · rw [if_neg hname] at h
        match hm : jget i "item" with
        | some (.arr xs) =>
          rw [hm] at h
          simp only at h
          by_cases hemp : filterInjList xs = []
          · simp [hemp] at h
          · rw [if_neg hemp] at h
            simp only [Option.some.injEq] at h
            subst h
            rw [goodView]
            have hszxs : sizeOf xs < sizeOf i := by
              have h1 := jget_sizeOf_lt hm
              have h2 : sizeOf xs < sizeOf (JVal.arr xs) := by
                simp only [JVal.arr.sizeOf_spec]
                omega
              omega
            have hgl : goodViewList (filterInjList xs) = true := by
              rcases Nat.lt_or_ge (sizeOf i) n with hlt | hge
              · exact (ih (sizeOf i) hlt).2 xs (le_of_lt hszxs)
              · have hn : sizeOf i = n := le_antisymm hsz hge
                rcases n with _ | m
                · omega
                · exact (ih m (by omega)).2 xs (by omega)
            rw [jget_setItems_item (filterInjList xs) hm]
            simp only [nameStr_setItems]
            simp [hname, hgl, hemp]
        | some .null | some (.bool _) | some (.int _) | some (.float _)
        | some (.str _) | some (.obj _) | none =>
          rw [hm] at h
          simp only [Option.some.injEq] at h
          subst h
          rw [goodView]
          rw [hm]
          simp [hname]
    · intro items hsz
      match items with
      | [] => rw [filterInjList, goodViewList]
      | i :: rest =>
        rw [filterInjList]
        have hi : sizeOf i < sizeOf (i :: rest) := by
          simp only [List.cons.sizeOf_spec]
          omega
        have hr : sizeOf rest < sizeOf (i :: rest) := by
          simp only [List.cons.sizeOf_spec]
          omega
        have hrest : goodViewList (filterInjList rest) = true := by
          rcases Nat.lt_or_ge (sizeOf (i :: rest)) n with hlt | hge
          · exact (ih (sizeOf (i :: rest)) hlt).2 rest (by omega)
          · have hn : sizeOf (i :: rest) = n := le_antisymm hsz hge
            rcases n with _ | m
            · omega
            · exact (ih m (by omega)).2 rest (by omega)
        match hf : filter_injection_requests i with
        | some j =>
          have hj : goodView j = true := by
            rcases Nat.lt_or_ge (sizeOf (i :: rest)) n with hlt | hge
            · exact (ih (sizeOf (i :: rest)) hlt).1 i j (by omega) hf
            · have hn : sizeOf (i :: rest) = n := le_antisymm hsz hge
              rcases n with _ | m
              · omega
              · exact (ih m (by omega)).1 i j (by omega) hf
          rw [goodViewList]
          simp [hj, hrest]
        | none => exact hrest

/-- C10: the UI view produced by `filter_injection_requests` contains no node
whose name contains "injection" (case-insensitively) and no folder with an
empty child list — a folder whose children all get filtered out is removed
rather than returned empty. -/
theorem c10_injection_filter_view (i j : JVal) (hwf : WFItemB i = true)
    (h : filter_injection_requests i = some j) : goodView j = true :=
  (filter_good_aux (sizeOf i)).1 i j le_rfl h

/-- Witness for C10 on a one-folder tree containing a request and an
injection request: the filtered output keeps only the plain request and
satisfies the view invariant. -/
theorem c10_injection_filter_view_witness :
    WFItemB (.obj [("name", .str "Users"),
      ("item", .arr [.obj [("name", .str "Get"), ("request", .obj [])],
                     .obj [("name", .str "Get XSS-Injection f"), ("request", .obj [])]])]) = true ∧
    goodView (.obj [("name", .str "Users"),
      ("item", .arr [.obj [("name", .str "Get"), ("request", .obj [])]])]) = true := by
  constructor
  · simp [WFItemB, WFItemsB, lookupKV]
  · exact c10_injection_filter_view
      (.obj [("name", .str "Users"),
        ("item", .arr [.obj [("name", .str "Get"), ("request", .obj [])],
                       .obj [("name", .str "Get XSS-Injection f"), ("request", .obj [])]])])
      (.obj [("name", .str "Users"),
        ("item", .arr [.obj [("name", .str "Get"), ("request", .obj [])]])])
      (by simp [WFItemB, WFItemsB, lookupKV])
      (by simp [filter_injection_requests, filterInjList, jget, lookupKV, nameStr,
            pyLower, strContains, containsSub, setItems])

theorem findIdxA_none_iff (p : JVal → Bool) (l : List JVal) :
    findIdxA p l = none ↔ ∀ x ∈ l, p x = false := by
  induction l with
  | nil => simp [findIdxA]
  | cons x xs ih =>
    rw [findIdxA]
    by_cases h : p x
    · simp [h]
    · simp only [h, if_false]
      simp only [Bool.not_eq_true] at h
      simp [h, ih]

theorem findIdxA_append_sing (p : JVal → Bool) (l1 l2 : List JVal) (x : JVal)
    (h : ∀ y ∈ l1, p y = false) (hx : p x = true) :
    findIdxA p (l1 ++ x :: l2) = some l1.length := by
  induction l1 with
  | nil => simp [findIdxA, hx]
  | cons y ys ih =>
    have hy : p y = false := h y (by simp)
    simp only [List.cons_append, findIdxA, hy, Bool.false_eq_true, if_false,
      List.append_eq]
    rw [ih (fun z hz => h z (by simp [hz]))]
    simp

theorem eraseIdx_append_len (l1 l2 : List JVal) (x : JVal) :
    (l1 ++ x :: l2).eraseIdx l1.length = l1 ++ l2 := by
  induction l1 with
  | nil => simp
  | cons y ys ih => simp [List.eraseIdx, ih]

theorem findIdxA_some_decomp (p : JVal → Bool) :
    ∀ (l : List JVal) (k : ℕ), findIdxA p l = some k →
      ∃ l1 x l2, l = l1 ++ x :: l2 ∧ l1.length = k ∧ p x = true ∧
        ∀ y ∈ l1, p y = false := by
  intro l
  induction l with
  | nil => intro k h; simp [findIdxA] at h
  | cons y ys ih =>
    intro k h
    rw [findIdxA] at h
    by_cases hy : p y
    · simp [hy] at h
      exact ⟨[], y, ys, by simp, by simp [← h], hy, by simp⟩
    · simp only [hy, Bool.false_eq_true, if_false] at h
      cases hh : findIdxA p ys with
      | none => rw [hh] at h; simp at h
      | some m =>
        rw [hh] at h
        simp at h
        obtain ⟨l1, x, l2, hdec, hlen, hx, hall⟩ := ih m hh
        refine ⟨y :: l1, x, l2, by simp [hdec], ?_, hx, ?_⟩
        · simp only [List.length_cons]
          omega
        · intro z hz
          rcases List.mem_cons.mp hz with hz1 | hz1
          · subst hz1
            simpa using hy
          · exact hall z hz1

theorem pred_new_folder (fname : String) (gen : List JVal) :
    filtering_folder_pred fname (JVal.obj [("name", .str fname), ("item", .arr gen)]) =
      true := by
  simp [filtering_folder_pred, isFolderList, nameOrNull, jget, lookupKV, jval_beq_def,
    jbeq_refl]

theorem countP_eq_zero_of_all_false {p : JVal → Bool} {l : List JVal}
    (h : ∀ x ∈ l, p x = false) : l.countP p = 0 := by
  induction l with
  | nil => simp
  | cons x xs ih =>
    rw [List.countP_cons]
    have hx := h x (by simp)
    simp [hx, ih (fun z hz => h z (by simp [hz]))]

theorem all_false_of_countP_eq_zero {p : JVal → Bool} {l : List JVal}
    (h : l.countP p = 0) : ∀ x ∈ l, p x = false := by
  induction l with
  | nil => simp
  | cons x xs ih =>
    rw [List.countP_cons] at h
    intro z hz
    rcases List.mem_cons.mp hz with hz1 | hz1
    · subst hz1
      by_cases hp : p z
      · simp [hp] at h
      · simpa using hp
    · exact ih (by omega) z hz1

theorem rff_some {parent : List JVal} {fname : String} {g : List JVal} {k : ℕ}
    (h : findIdxA (filtering_folder_pred fname) parent = some k) :
    replace_filtering_folder parent fname g =
      parent.eraseIdx k ++ [JVal.obj [("name", .str fname), ("item", .arr g)]] := by
  rw [replace_filtering_folder, h]

theorem rff_none {parent : List JVal} {fname : String} {g : List JVal}
    (h : findIdxA (filtering_folder_pred fname) parent = none) :
    replace_filtering_folder parent fname g =
      parent ++ [JVal.obj [("name", .str fname), ("item", .arr g)]] := by
  rw [replace_filtering_folder, h]

/-- C5: when the sibling list holds at most one `"<name> Filtering"` folder,
running the folder-replacement step of `generate_filtered_collection` twice
leaves exactly one such folder (the second run replaces the first run's
folder rather than adding another), and the replacement sits at the same
sibling index as the folder it replaced. -/
theorem c5_filter_folder_replacement (parent : List JVal) (fname : String)
    (g1 g2 : List JVal)
    (hcount : parent.countP (filtering_folder_pred fname) ≤ 1) :
    (replace_filtering_folder parent fname g1).countP (filtering_folder_pred fname) = 1 ∧
    (replace_filtering_folder (replace_filtering_folder parent fname g1) fname g2).countP
        (filtering_folder_pred fname) = 1 ∧
    findIdxA (filtering_folder_pred fname)
        (replace_filtering_folder (replace_filtering_folder parent fname g1) fname g2) =
      findIdxA (filtering_folder_pred fname) (replace_filtering_folder parent fname g1) ∧
    findIdxA (filtering_folder_pred fname) (replace_filtering_folder parent fname g1) =
      some ((replace_filtering_folder parent fname g1).length - 1) := by
  have hpF1 := pred_new_folder fname g1
  have hpF2 := pred_new_folder fname g2
  have main : ∃ str : List JVal,
      (∀ y ∈ str, filtering_folder_pred fname y = false) ∧
      replace_filtering_folder parent fname g1 =
        str ++ [JVal.obj [("name", .str fname), ("item", .arr g1)]] := by
    cases hf : findIdxA (filtering_folder_pred fname) parent with
    | none =>
      exact ⟨parent, (findIdxA_none_iff _ parent).mp hf, rff_none hf⟩
    | some k =>
      obtain ⟨l1, x, l2, hdec, hlen, hx, hall⟩ :=
        findIdxA_some_decomp (filtering_folder_pred fname) parent k hf
      have hcnt : parent.countP (filtering_folder_pred fname) =
          l1.countP (filtering_folder_pred fname) + 1 +
          l2.countP (filtering_folder_pred fname) := by
        rw [hdec, List.countP_append, List.countP_cons]
        simp [hx]
        omega
      have hc1 : l1.countP (filtering_folder_pred fname) = 0 :=
        countP_eq_zero_of_all_false hall
      have hc2 : l2.countP (filtering_folder_pred fname) = 0 := by omega
      refine ⟨l1 ++ l2, ?_, ?_⟩
      · intro y hy
        rcases List.mem_append.mp hy with hy1 | hy1
        · exact hall y hy1
        · exact all_false_of_countP_eq_zero hc2 y hy1
      · rw [rff_some hf, hdec, ← hlen, eraseIdx_append_len]
  obtain ⟨str, hstr, hrep⟩ := main
  have hfind1 : findIdxA (filtering_folder_pred fname)
      (replace_filtering_folder parent fname g1) = some str.length := by
    rw [hrep]
    exact findIdxA_append_sing _ str [] _ hstr hpF1
  have hcount1 : (replace_filtering_folder parent fname g1).countP
      (filtering_folder_pred fname) = 1 := by
    rw [hrep, List.countP_append, countP_eq_zero_of_all_false hstr]
    simp [List.countP_cons, hpF1]
  have hrep2 : replace_filtering_folder (replace_filtering_folder parent fname g1)
      fname g2 = str ++ [JVal.obj [("name", .str fname), ("item", .arr g2)]] := by
    rw [rff_some hfind1, hrep]
    rw [show str.length = str.length from rfl]
    rw [eraseIdx_append_len str []]
    simp
  have hfind2 : findIdxA (filtering_folder_pred fname) (replace_filtering_folder
      (replace_filtering_folder parent fname g1) fname g2) = some str.length := by
    rw [hrep2]
    exact findIdxA_append_sing _ str [] _ hstr hpF2
  have hlen1 : (replace_filtering_folder parent fname g1).length = str.length + 1 := by
    rw [hrep]
    simp
  refine ⟨hcount1, ?_, ?_, ?_⟩
  · rw [hrep2, List.countP_append, countP_eq_zero_of_all_false hstr]
    simp [List.countP_cons, hpF2]
  · rw [hfind2, hfind1]
  · rw [hfind1, hlen1]
    simp

/-- Witness for C5 on a sibling list holding one request and an older
filtering folder. -/
theorem c5_filter_folder_replacement_witness :
    ([JVal.obj [("name", .str "Get"), ("request", .obj [])],
      JVal.obj [("name", .str "Get Filtering"), ("item", .arr [])]].countP
        (filtering_folder_pred "Get Filtering")) ≤ 1 ∧
    (replace_filtering_folder
        (replace_filtering_folder
          [JVal.obj [("name", .str "Get"), ("request", .obj [])],
           JVal.obj [("name", .str "Get Filtering"), ("item", .arr [])]]
          "Get Filtering" [])
        "Get Filtering" []).countP (filtering_folder_pred "Get Filtering") = 1 := by
  refine ⟨by simp [List.countP_cons, filtering_folder_pred, isFolderList, nameOrNull,
    jget, lookupKV, jval_beq_def, jbeq], ?_⟩
  exact (c5_filter_folder_replacement
    [JVal.obj [("name", .str "Get"), ("request", .obj [])],
     JVal.obj [("name", .str "Get Filtering"), ("item", .arr [])]]
    "Get Filtering" [] []
    (by simp [List.countP_cons, filtering_folder_pred, isFolderList, nameOrNull,
      jget, lookupKV, jval_beq_def, jbeq])).2.1

/-- Counterexample for C4: on the body `{"user":{"name":"Bob","age":30}}` the
extraction collects only string-valued fields, so `user.age` (an integer) is
not a target and only one XSS variant is generated, not two. -/
theorem c4_xss_scenario_counterexample :
    extract_nested_string_fields
        (.obj [("user", .obj [("name", .str "Bob"), ("age", .int 30)])]) "" 10 0 =
      ["user.name"] ∧
    extract_nested_string_fields
        (.obj [("user", .obj [("name", .str "Bob"), ("age", .int 30)])]) "" 10 0 ≠
      ["user.name", "user.age"] ∧
    (xss_variant_bodies
        (.obj [("user", .obj [("name", .str "Bob"), ("age", .int 30)])])).length = 1 := by
  refine ⟨?_, ?_, ?_⟩
  · simp [extract_nested_string_fields, ensfPairs, dotKey, is_string_field]
  · simp [extract_nested_string_fields, ensfPairs, dotKey, is_string_field]
  · simp [xss_variant_bodies, extract_nested_string_fields, ensfPairs, dotKey,
      is_string_field]

/-- C4 (amended): for the body `{"user":{"name":"Bob","age":30}}` the extracted
target field paths are exactly `["user.name"]` (only string-valued fields are
targeted), and requesting XSS variants yields exactly one generated request
body, with `user.name` overwritten by the first XSS payload and `user.age`
left untouched. -/
theorem c4_xss_scenario_amended :
    extract_nested_string_fields
        (.obj [("user", .obj [("name", .str "Bob"), ("age", .int 30)])]) "" 10 0 =
      ["user.name"] ∧
    xss_variant_bodies
        (.obj [("user", .obj [("name", .str "Bob"), ("age", .int 30)])]) =
      [.obj [("user", .obj [("name", .str xssPayload0), ("age", .int 30)])]] := by
  constructor
  · simp [extract_nested_string_fields, ensfPairs, dotKey, is_string_field]
  · simp [xss_variant_bodies, extract_nested_string_fields, ensfPairs, dotKey,
      is_string_field, set_nested_value, splitOnDot, setParts, insertObj, insertKV,
      jget, lookupKV]

theorem isPrefixOf_append_self : ∀ (n suf : List Char), n.isPrefixOf (n ++ suf) = true := by
  intro n suf
  induction n with
  | nil => simp [List.isPrefixOf]
  | cons c cs ih => simp [List.isPrefixOf, ih]

theorem containsSub_middle (n : List Char) :
    ∀ (pre suf : List Char), containsSub n (pre ++ n ++ suf) = true := by
  intro pre
  induction pre with
  | nil =>
    intro suf
    rw [containsSub.eq_def]
    simp [isPrefixOf_append_self]
  | cons c cs ih =>
    intro suf
    rw [containsSub.eq_def]
    simp only [List.cons_append]
    rw [ih suf]
    simp

theorem takeWhile_append_stop (p : Char → Bool) :
    ∀ (v l : List Char) (d : Char), (∀ c ∈ v, p c = true) → p d = false →
      (v ++ d :: l).takeWhile p = v := by
  intro v
  induction v with
  | nil =>
    intro l d _ hd
    simp [List.takeWhile_cons, hd]
  | cons c cs ih =>
    intro l d hall hd
    have hc : p c = true := hall c (by simp)
    simp only [List.cons_append, List.takeWhile_cons, hc, if_true]
    rw [ih l d (fun z hz => hall z (by simp [hz])) hd]

theorem matchVarAt_token (v rest : List Char) (hv : v ≠ [])
    (hnb : ∀ c ∈ v, c ≠ '\x7d') :
    matchVarAt ('\x7b' :: '\x7b' :: (v ++ '\x7d' :: '\x7d' :: rest)) = some (v, rest) := by
  rw [matchVarAt]
  rw [if_pos (by simp)]
  have htw : (v ++ '\x7d' :: '\x7d' :: rest).takeWhile (fun c => c ≠ '\x7d') = v := by
    apply takeWhile_append_stop
    · intro c hc
      simp [hnb c hc]
    · simp
  simp only [List.drop_succ_cons, List.drop_zero, htw]
  rw [List.drop_left]
  rw [if_pos ⟨hv, by simp⟩]
  simp

/-- Counterexample for C7: the raw URL `\x7b\x7bhost\x7d\x7d/api` begins with
the bare variable token `\x7b\x7bhost\x7d\x7d`, yet `_parse_host` returns `[]`
rather than the one-element token list, because the special case only fires
for `baseUrl` or names containing "url". -/
theorem c7_parse_host_counterexample :
    parse_host "\x7b\x7bhost\x7d\x7d/api".data = [] ∧
    ([] : List (List Char)) ≠ ["\x7b\x7bhost\x7d\x7d".data] := by
  constructor
  · simp [parse_host, matchVarAt, containsSub, substVars, urlparseNetloc, schemeSplit,
      isSchemeChar]
  · simp

/-- C7 (amended): a raw URL beginning with a bare `\x7b\x7bvar\x7d\x7d` token
whose variable name is `baseUrl` or contains "url" (case-insensitively) makes
`_parse_host` return exactly the one-element token list, bypassing the
sentinel-substitution parsing path; other leading variables fall through to
generic parsing. -/
theorem c7_parse_host_variable_amended (v rest : List Char) (hv : v ≠ [])
    (hnb : ∀ c ∈ v, c ≠ '\x7d')
    (hgate : v = "baseUrl".data ∨ containsSub "url".data (v.map Char.toLower) = true) :
    parse_host ('\x7b' :: '\x7b' :: (v ++ '\x7d' :: '\x7d' :: rest)) =
      [['\x7b', '\x7b'] ++ v ++ ['\x7d', '\x7d']] := by
  rw [parse_host]
  have hpre : (['\x7b', '\x7b'] : List Char).isPrefixOf
      ('\x7b' :: '\x7b' :: (v ++ '\x7d' :: '\x7d' :: rest)) = true := by
    simp [List.isPrefixOf]
  have hcontains : containsSub ['\x7d', '\x7d']
      ('\x7b' :: '\x7b' :: (v ++ '\x7d' :: '\x7d' :: rest)) = true := by
    have h := containsSub_middle ['\x7d', '\x7d'] ('\x7b' :: '\x7b' :: v) rest
    simpa using h
  rw [if_pos ⟨hpre, hcontains⟩]
  rw [matchVarAt_token v rest hv hnb]
  simp only
  rw [if_pos hgate]

/-- Witness for C7 (amended) on `\x7b\x7bbaseUrl\x7d\x7d/api`. -/
theorem c7_parse_host_variable_amended_witness :
    parse_host "\x7b\x7bbaseUrl\x7d\x7d/api".data =
      [['\x7b', '\x7b'] ++ "baseUrl".data ++ ['\x7d', '\x7d']] := by
  have h := c7_parse_host_variable_amended "baseUrl".data "/api".data
    (by decide) (by decide) (Or.inl rfl)
  exact h

/-- Counterexample for C6 at the schema
`{"type":"object","required":["a"],"properties":{"a":{"type":"array","items":{"type":"integer"}},"b":{"type":"string","example":"x"}}}`:
the claim predicts the map `{"a":[0]}` (only required fields, array as a
one-element list of the item example), but the code yields `{"a":[],"b":"x"}` —
the synthesized integer item example `0` is falsy so the array comes out
empty, and the non-required property `b` is included because it carries an
explicit example. -/
theorem c6_example_generation_counterexample :
    generate_example_from_schema 10 "NOW" "TODAY" (.obj [])
        (.obj [("type", .str "object"),
               ("required", .arr [.str "a"]),
               ("properties", .obj [
                 ("a", .obj [("type", .str "array"),
                             ("items", .obj [("type", .str "integer")])]),
                 ("b", .obj [("type", .str "string"), ("example", .str "x")])])]) =
      .obj [("a", .arr []), ("b", .str "x")] ∧
    JVal.obj [("a", .arr []), ("b", .str "x")] ≠ .obj [("a", .arr [.int 0])] := by
  constructor
  · simp [generate_example_from_schema, genProps, jget, lookupKV, truthy, jval_beq_def,
      jbeq, List.contains_cons, stringFallback]
  · simp

/-- C6 (amended): per property, example generation resolves explicit `example`
first, then `default`, then type-directed synthesis, where synthesis runs only
for properties that are required or when the required list is empty —
example/default-bearing properties are emitted regardless of requiredness.
Synthesis yields: string → the `\x7b\x7bfieldName\x7d\x7d` placeholder,
integer → 0, number → 0.0, boolean → true, array → a one-element array of the
recursively generated item example when that example is truthy and an empty
array otherwise (and an empty array for falsy `items`), object → the
recursively generated example of the property's sub-schema. -/
theorem c6_example_generation_amended :
    (∀ (f : ℕ) (nw td n : String) (sw t v d : JVal), v ≠ .null →
      generate_example_from_schema (f+1) nw td sw
        (.obj [("type", .str "object"),
               ("properties",
                .obj [(n, .obj [("type", t), ("example", v), ("default", d)])])]) =
      .obj [(n, v)]) ∧
    (∀ (f : ℕ) (nw td n : String) (sw t d : JVal), d ≠ .null →
      generate_example_from_schema (f+1) nw td sw
        (.obj [("type", .str "object"),
               ("properties", .obj [(n, .obj [("type", t), ("default", d)])])]) =
      .obj [(n, d)]) ∧
    (∀ (f : ℕ) (nw td n : String) (sw : JVal),
      generate_example_from_schema (f+1) nw td sw
        (.obj [("type", .str "object"),
               ("properties", .obj [(n, .obj [("type", .str "string")])])]) =
      .obj [(n, .str ("\x7b\x7b" ++ n ++ "\x7d\x7d"))]) ∧
    (∀ (f : ℕ) (nw td n : String) (sw : JVal),
      generate_example_from_schema (f+1) nw td sw
        (.obj [("type", .str "object"),
               ("properties", .obj [(n, .obj [("type", .str "integer")])])]) =
      .obj [(n, .int 0)]) ∧
    (∀ (f : ℕ) (nw td n : String) (sw : JVal),
      generate_example_from_schema (f+1) nw td sw
        (.obj [("type", .str "object"),
               ("properties", .obj [(n, .obj [("type", .str "number")])])]) =
      .obj [(n, .float 0)]) ∧
    (∀ (f : ℕ) (nw td n : String) (sw : JVal),
      generate_example_from_schema (f+1) nw td sw
        (.obj [("type", .str "object"),
               ("properties", .obj [(n, .obj [("type", .str "boolean")])])]) =
      .obj [(n, .bool true)]) ∧
    (∀ (f : ℕ) (nw td n : String) (sw i : JVal),
      generate_example_from_schema (f+1) nw td sw
        (.obj [("type", .str "object"),
               ("properties", .obj [(n, .obj [("type", .str "array"), ("items", i)])])]) =
      .obj [(n, if truthy i then
          (if truthy (generate_example_from_schema f nw td sw i) then
            .arr [generate_example_from_schema f nw td sw i] else .arr [])
        else .arr [])]) ∧
    (∀ (f : ℕ) (nw td n : String) (sw : JVal) (pskvs : List (String × JVal)),
      lookupKV pskvs "$ref" = none →
      lookupKV pskvs "type" = some (.str "object") →
      lookupKV pskvs "format" = none →
      lookupKV pskvs "example" = none →
      lookupKV pskvs "default" = none →
      generate_example_from_schema (f+1) nw td sw
        (.obj [("type", .str "object"),
               ("properties", .obj [(n, .obj pskvs)])]) =
      .obj [(n, generate_example_from_schema f nw td sw (.obj pskvs))]) ∧
    (∀ (f : ℕ) (nw td n m : String) (sw : JVal), n ≠ m →
      generate_example_from_schema (f+1) nw td sw
        (.obj [("type", .str "object"), ("required", .arr [.str n]),
               ("properties", .obj [(n, .obj [("type", .str "string")]),
                                    (m, .obj [("type", .str "string")])])]) =
      .obj [(n, .str ("\x7b\x7b" ++ n ++ "\x7d\x7d"))]) ∧
    (∀ (f : ℕ) (nw td n m : String) (sw v : JVal), n ≠ m → v ≠ .null →
      generate_example_from_schema (f+1) nw td sw
        (.obj [("type", .str "object"), ("required", .arr [.str n]),
               ("properties", .obj [(n, .obj [("type", .str "string")]),
                                    (m, .obj [("type", .str "string"),
                                              ("example", v)])])]) =
      .obj [(n, .str ("\x7b\x7b" ++ n ++ "\x7d\x7d")), (m, v)]) := by
  refine ⟨?_, ?_, ?_, ?_, ?_, ?_, ?_, ?_, ?_, ?_⟩
  · intro f nw td n sw t v d hv
    cases v <;> first
      | exact absurd rfl hv
      | simp [generate_example_from_schema, genProps, jget, lookupKV, truthy,
          jval_beq_def, jbeq]
  · intro f nw td n sw t d hd
    cases d <;> first
      | exact absurd rfl hd
      | simp [generate_example_from_schema, genProps, jget, lookupKV, truthy,
          jval_beq_def, jbeq]
  · intro f nw td n sw
    simp [generate_example_from_schema, genProps, jget, lookupKV, truthy,
      jval_beq_def, jbeq]
  · intro f nw td n sw
    simp [generate_example_from_schema, genProps, jget, lookupKV, truthy,
      jval_beq_def, jbeq]
  · intro f nw td n sw
    simp [generate_example_from_schema, genProps, jget, lookupKV, truthy,
      jval_beq_def, jbeq]
  · intro f nw td n sw
    simp [generate_example_from_schema, genProps, jget, lookupKV, truthy,
      jval_beq_def, jbeq]
  · intro f nw td n sw i
    simp [generate_example_from_schema, genProps, jget, lookupKV, truthy,
      jval_beq_def, jbeq]
  · intro f nw td n sw pskvs h1 h2 h3 h4 h5
    simp [generate_example_from_schema, genProps, jget, lookupKV, truthy,
      jval_beq_def, jbeq, h1, h2, h3, h4, h5]
  · intro f nw td n m sw hnm
    have hmn : ¬(m = n) := fun h => hnm h.symm
    simp [generate_example_from_schema, genProps, jget, lookupKV, truthy,
      jval_beq_def, jbeq, List.contains_cons, hmn]
  · intro f nw td n m sw v hnm hv
    have hmn : ¬(m = n) := fun h => hnm h.symm
    cases v <;> first
      | exact absurd rfl hv
      | simp [generate_example_from_schema, genProps, jget, lookupKV, truthy,
          jval_beq_def, jbeq, List.contains_cons, hmn]

/-- Witness for C6 (amended): instantiates every clause at concrete inputs,
discharging the non-null, distinct-name and key-shape hypotheses. -/
theorem c6_example_generation_amended_witness :
    generate_example_from_schema 3 "N" "T" (.obj [])
        (.obj [("type", .str "object"),
               ("properties",
                .obj [("p", .obj [("type", .str "string"), ("example", .int 7),
                                  ("default", .int 9)])])]) =
      .obj [("p", .int 7)] ∧
    generate_example_from_schema 3 "N" "T" (.obj [])
        (.obj [("type", .str "object"),
               ("properties",
                .obj [("p", .obj [("type", .str "string"), ("default", .int 9)])])]) =
      .obj [("p", .int 9)] ∧
    generate_example_from_schema 3 "N" "T" (.obj [])
        (.obj [("type", .str "object"),
               ("properties", .obj [("p", .obj [("type", .str "object")])])]) =
      .obj [("p", generate_example_from_schema 2 "N" "T" (.obj [])
        (.obj [("type", .str "object")]))] ∧
    generate_example_from_schema 3 "N" "T" (.obj [])
        (.obj [("type", .str "object"), ("required", .arr [.str "p"]),
               ("properties", .obj [("p", .obj [("type", .str "string")]),
                                    ("q", .obj [("type", .str "string")])])]) =
      .obj [("p", .str "\x7b\x7bp\x7d\x7d")] ∧
    generate_example_from_schema 3 "N" "T" (.obj [])
        (.obj [("type", .str "object"), ("required", .arr [.str "p"]),
               ("properties", .obj [("p", .obj [("type", .str "string")]),
                                    ("q", .obj [("type", .str "string"),
                                                ("example", .str "E")])])]) =
      .obj [("p", .str "\x7b\x7bp\x7d\x7d"), ("q", .str "E")] := by
  refine ⟨?_, ?_, ?_, ?_, ?_⟩
  · exact c6_example_generation_amended.1 2 "N" "T" "p" (.obj []) (.str "string")
      (.int 7) (.int 9) (by simp)
  · exact c6_example_generation_amended.2.1 2 "N" "T" "p" (.obj []) (.str "string")
      (.int 9) (by simp)
  · exact c6_example_generation_amended.2.2.2.2.2.2.2.1 2 "N" "T" "p" (.obj [])
      [("type", .str "object")] (by simp [lookupKV]) (by simp [lookupKV])
      (by simp [lookupKV]) (by simp [lookupKV]) (by simp [lookupKV])
  · exact c6_example_generation_amended.2.2.2.2.2.2.2.2.1 2 "N" "T" "p" "q" (.obj [])
      (by simp)
  · exact c6_example_generation_amended.2.2.2.2.2.2.2.2.2 2 "N" "T" "p" "q" (.obj [])
      (.str "E") (by simp) (by simp)

/-- `x` occurs somewhere in the item tree spanned by `items`: either as a
member of the list, or inside the child list of a folder member. -/
inductive OccursIn (x : JVal) : List JVal → Prop where
  | here {items : List JVal} (h : x ∈ items) : OccursIn x items
  | inside {items : List JVal} (f : JVal) (xs : List JVal) (hf : f ∈ items)
      (hxs : jget f "item" = some (.arr xs)) (h : OccursIn x xs) : OccursIn x items

theorem occ_append_left {x : JVal} {l l2 : List JVal} (h : OccursIn x l) :
    OccursIn x (l ++ l2) := by
  cases h with
  | here h => exact .here (List.mem_append_left l2 h)
  | inside f xs hf hxs hocc => exact .inside f xs (List.mem_append_left l2 hf) hxs hocc

theorem occ_cons_lift {x i : JVal} {rest : List JVal} (h : OccursIn x rest) :
    OccursIn x (i :: rest) := by
  cases h with
  | here h => exact .here (List.mem_cons_of_mem i h)
  | inside f xs hf hxs hocc => exact .inside f xs (List.mem_cons_of_mem i hf) hxs hocc

theorem occ_cons_inv {x i : JVal} {rest : List JVal} (h : OccursIn x (i :: rest)) :
    x = i ∨ (∃ ys, jget i "item" = some (.arr ys) ∧ OccursIn x ys) ∨ OccursIn x rest := by
  cases h with
  | here h =>
    rcases List.mem_cons.mp h with h1 | h1
    · exact Or.inl h1
    · exact Or.inr (Or.inr (.here h1))
  | inside f xs hf hxs hocc =>
    rcases List.mem_cons.mp hf with h1 | h1
    · subst h1
      exact Or.inr (Or.inl ⟨xs, hxs, hocc⟩)
    · exact Or.inr (Or.inr (.inside f xs h1 hxs hocc))

theorem isFolderList_false_iff (r : JVal) :
    isFolderList r = false ↔ ∀ xs, jget r "item" ≠ some (.arr xs) := by
  rw [isFolderList]
  cases hm : jget r "item" with
  | none => simp
  | some w => cases w <;> simp

theorem merge_recursive_eq_map (allU orig : List JVal) :
    merge_recursive allU orig = orig.map (mergeItem allU) := by
  induction orig with
  | nil => rw [merge_recursive]; simp
  | cons i rest ih => rw [merge_recursive]; simp [ih]

theorem mergeItem_inj {i : JVal} (allU : List JVal)
    (h : strContains (pyLower (nameStr i)) "injection" = true) :
    mergeItem allU i = i := by
  rw [mergeItem]
  cases hm : jget i "item" with
  | some w =>
    cases w with
    | arr xs => simp [h]
    | null | bool b | int n | float q | str s | obj kvs =>
      by_cases hr : hasRequest i
      · simp [hr, is_injection_request, h]
      · simp [hr]
  | none =>
    by_cases hr : hasRequest i
    · simp [hr, is_injection_request, h]
    · simp [hr]

theorem mergeItem_folder_noninj {i : JVal} {xs : List JVal} (allU : List JVal)
    (hm : jget i "item" = some (.arr xs))
    (h : strContains (pyLower (nameStr i)) "injection" = false) :
    mergeItem allU i = setItems i (merge_recursive allU xs) := by
  rw [mergeItem]
  rw [hm]
  simp [h]

theorem mergeItem_req {i : JVal} (allU : List JVal)
    (hfold : isFolderList i = false)
    (hreq : hasRequest i = true)
    (hinj : is_injection_request i = false) :
    mergeItem allU i =
      (match find_matching_item i allU with
       | some u => u
       | none => i) := by
  rw [mergeItem]
  cases hm : jget i "item" with
  | some w =>
    cases w with
    | arr xs =>
      exact absurd hm ((isFolderList_false_iff i).mp hfold xs)
    | null | bool b | int n | float q | str s | obj kvs => simp [hreq, hinj]
  | none => simp [hreq, hinj]

theorem merge_keeps_injection (allU : List JVal) :
    ∀ (orig : List JVal) (x : JVal),
      strContains (pyLower (nameStr x)) "injection" = true →
      OccursIn x orig → OccursIn x (merge_recursive allU orig) := by
  intro orig x hx hocc
  induction hocc with
  | here h =>
    rw [merge_recursive_eq_map]
    have : mergeItem allU x = x := mergeItem_inj allU hx
    exact .here (this ▸ List.mem_map_of_mem (mergeItem allU) h)
  | inside f xs hf hxs hocc ih =>
    rw [merge_recursive_eq_map]
    by_cases hfinj : strContains (pyLower (nameStr f)) "injection" = true
    · have heq : mergeItem allU f = f := mergeItem_inj allU hfinj
      exact .inside f xs (heq ▸ List.mem_map_of_mem (mergeItem allU) hf) hxs hocc
    · have heq : mergeItem allU f = setItems f (merge_recursive allU xs) :=
        mergeItem_folder_noninj allU hxs (by simpa using hfinj)
      refine .inside (setItems f (merge_recursive allU xs)) (merge_recursive allU xs)
        (heq ▸ List.mem_map_of_mem (mergeItem allU) hf)
        (jget_setItems_item _ hxs) ?_
      exact ih

theorem merge_keeps_request (allU : List JVal) :
    ∀ (orig : List JVal) (r : JVal),
      OccursIn r orig → isFolderList r = false → hasRequest r = true →
      is_injection_request r = false →
      OccursIn r (merge_recursive allU orig) ∨
      (∃ u, find_matching_item r allU = some u ∧
        OccursIn u (merge_recursive allU orig)) := by
  intro orig r hocc hfold hreq hinj
  induction hocc with
  | here h =>
    rw [merge_recursive_eq_map]
    have heq := mergeItem_req allU hfold hreq hinj
    cases hfind : find_matching_item r allU with
    | some u =>
      rw [hfind] at heq
      simp only at heq
      exact Or.inr ⟨u, rfl, .here (heq ▸ List.mem_map_of_mem (mergeItem allU) h)⟩
    | none =>
      rw [hfind] at heq
      simp only at heq
      exact Or.inl (.here (heq ▸ List.mem_map_of_mem (mergeItem allU) h))
  | inside f xs hf hxs hocc ih =>
    rw [merge_recursive_eq_map]
    by_cases hfinj : strContains (pyLower (nameStr f)) "injection" = true
    · have heq : mergeItem allU f = f := mergeItem_inj allU hfinj
      exact Or.inl (.inside f xs (heq ▸ List.mem_map_of_mem (mergeItem allU) hf)
        hxs hocc)
    · have heq : mergeItem allU f = setItems f (merge_recursive allU xs) :=
        mergeItem_folder_noninj allU hxs (by simpa using hfinj)
      rcases ih with ih1 | ⟨u, hu, ih1⟩
      · refine Or.inl (.inside (setItems f (merge_recursive allU xs))
          (merge_recursive allU xs)
          (heq ▸ List.mem_map_of_mem (mergeItem allU) hf)
          (jget_setItems_item _ hxs) ih1)
      · refine Or.inr ⟨u, hu, .inside (setItems f (merge_recursive allU xs))
          (merge_recursive allU xs)
          (heq ▸ List.mem_map_of_mem (mergeItem allU) hf)
          (jget_setItems_item _ hxs) ih1⟩

mutual
/-- Does the subtree rooted at `x` (including `x` itself) contain a folder
whose name equals `pfn`? Only folder nodes (with a list-valued `item`) count. -/
def hasFolderNamed (pfn : JVal) (x : JVal) : Bool :=
  match hm : jget x "item" with
  | some (.arr xs) => (nameOrNull x == pfn) || hasFolderNamedL pfn xs
  | _ => false
termination_by sizeOf x
decreasing_by
  have h2 := jget_sizeOf_lt hm
  have h3 : sizeOf xs < sizeOf (JVal.arr xs) := by
    simp only [JVal.arr.sizeOf_spec]
    omega
  omega

/-- `hasFolderNamed` over a list of nodes. -/
def hasFolderNamedL (pfn : JVal) (l : List JVal) : Bool :=
  match l with
  | [] => false
  | i :: rest => hasFolderNamed pfn i || hasFolderNamedL pfn rest
termination_by sizeOf l
decreasing_by
  · simp only [List.cons.sizeOf_spec]
    omega
  · simp only [List.cons.sizeOf_spec]
    omega
end

theorem hasFolderNamed_of_not_folder {pfn x : JVal} (h : isFolderList x = false) :
    hasFolderNamed pfn x = false := by
  rw [hasFolderNamed]
  cases hm : jget x "item" with
  | some w =>
    cases w with
    | arr xs => exact absurd hm ((isFolderList_false_iff x).mp h xs)
    | null | bool b | int n | float q | str s | obj kvs => rfl
  | none => rfl

theorem hasFolderNamedL_of_mem {pfn : JVal} {l : List JVal} {i : JVal}
    (hm : i ∈ l) (h : hasFolderNamed pfn i = true) : hasFolderNamedL pfn l = true := by
  induction l with
  | nil => simp at hm
  | cons y rest ih =>
    rw [hasFolderNamedL]
    rcases List.mem_cons.mp hm with h1 | h1
    · subst h1
      simp [h]
    · simp [ih h1]

theorem upd_some_hasFolderL :
    ∀ (T : List JVal) (pfn : JVal) (g : JVal → JVal),
      (∀ T', updateFolderTree T pfn g = some T' → hasFolderNamedL pfn T = true) := by
  intro T pfn g
  induction T, pfn, g using updateFolderTree.induct with
  | case1 fname g =>
    intro T' h
    rw [updateFolderTree] at h
    exact absurd h (by simp)
  | case2 fname g i rest xs hm hname =>
    intro T' h
    rw [hasFolderNamedL]
    have hi : hasFolderNamed fname i = true := by
      rw [hasFolderNamed]
      rw [hm]
      simp [hname]
    simp [hi]
  | case3 fname g i rest xs hm hname r hupd ih =>
    intro T' h
    rw [hasFolderNamedL]
    have hi : hasFolderNamed fname i = true := by
      rw [hasFolderNamed]
      rw [hm]
      simp [ih r hupd]
    simp [hi]
  | case4 fname g i rest xs hm hname hchild r hrest ihxs ihrest =>
    intro T' h
    rw [hasFolderNamedL]
    simp [ihrest r hrest]
  | case5 fname g i rest xs hm hname hchild hrest ihxs ihrest =>
    intro T' h
    rw [updateFolderTree] at h
    rw [hm] at h
    simp [hname, hchild, hrest] at h
  | case6 fname g i rest r hrest hnf ihrest =>
    intro T' h
    rw [hasFolderNamedL]
    simp [ihrest r hrest]
  | case7 fname g i rest hrest hnf ihrest =>
    intro T' h
    rw [updateFolderTree] at h
    rcases hmm : jget i "item" with _ | w
    · rw [hmm] at h
      simp [hrest] at h
    · rcases w with _ | _ | _ | _ | _ | xs | _ <;>
        first
        | exact (hnf _ hmm).elim
        | (rw [hmm] at h
           simp [hrest] at h)

theorem updateFolderTree_occ (w : JVal) :
    ∀ (T : List JVal) (pfn : JVal) (g : JVal → JVal),
      (∀ fo ys, jget fo "item" = some (.arr ys) →
        g fo = fo ∨ g fo = setItems fo (ys ++ [w])) →
      ∀ (T' : List JVal) (x : JVal),
        hasFolderNamed pfn x = false →
        updateFolderTree T pfn g = some T' →
        OccursIn x T → OccursIn x T' := by
  intro T pfn g
  induction T, pfn, g using updateFolderTree.induct with
  | case1 fname g =>
    intro hG T' x hxf h hocc
    rw [updateFolderTree] at h
    exact absurd h (by simp)
  | case2 fname g i rest xs hm hname =>
    intro hG T' x hxf h hocc
    rw [updateFolderTree] at h
    rw [hm] at h
    simp only at h
    rw [if_pos hname] at h
    simp only [Option.some.injEq] at h
    subst h
    rcases occ_cons_inv hocc with h1 | ⟨ys, hys, hocc1⟩ | h1
    · subst h1
      have : hasFolderNamed fname x = true := by
        rw [hasFolderNamed]
        rw [hm]
        simp [hname]
      rw [this] at hxf
      exact absurd hxf (by simp)
    · have hyx : ys = xs := by
        rw [hm] at hys
        simpa using hys.symm
      subst hyx
      rcases hG i ys hm with hg1 | hg1
      · rw [hg1]
        exact .inside i ys (by simp) hm hocc1
      · rw [hg1]
        exact .inside (setItems i (ys ++ [w])) (ys ++ [w]) (by simp)
          (jget_setItems_item _ hm) (occ_append_left hocc1)
    · exact occ_cons_lift h1
  | case3 fname g i rest xs hm hname r hupd ih =>
    intro hG T' x hxf h hocc
    rw [updateFolderTree] at h
    rw [hm] at h
    simp only at h
    rw [if_neg hname] at h
    rw [hupd] at h
    simp only [Option.some.injEq] at h
    subst h
    rcases occ_cons_inv hocc with h1 | ⟨ys, hys, hocc1⟩ | h1
    · subst h1
      have : hasFolderNamed fname x = true := by
        rw [hasFolderNamed]
        rw [hm]
        simp [upd_some_hasFolderL xs fname g r hupd]
      rw [this] at hxf
      exact absurd hxf (by simp)
    · have hyx : ys = xs := by
        rw [hm] at hys
        simpa using hys.symm
      subst hyx
      exact .inside (setItems i r) r (by simp) (jget_setItems_item _ hm)
        (ih hG r x hxf hupd hocc1)
    · exact occ_cons_lift h1
  | case4 fname g i rest xs hm hname hchild r hrest ihxs ihrest =>
    intro hG T' x hxf h hocc
    rw [updateFolderTree] at h
    rw [hm] at h
    simp only at h
    rw [if_neg hname] at h
    rw [hchild, hrest] at h
    simp only [Option.some.injEq] at h
    subst h
    rcases occ_cons_inv hocc with h1 | ⟨ys, hys, hocc1⟩ | h1
    · subst h1
      exact .here (by simp)
    · exact .inside i ys (by simp) hys hocc1
    · exact occ_cons_lift (ihrest hG r x hxf hrest h1)
  | case5 fname g i rest xs hm hname hchild hrest ihxs ihrest =>
    intro hG T' x hxf h hocc
    rw [updateFolderTree] at h
    rw [hm] at h
    simp only at h
    rw [if_neg hname] at h
    rw [hchild, hrest] at h
    exact absurd h (by simp)
  | case6 fname g i rest r hrest hnf ihrest =>
    intro hG T' x hxf h hocc
    have hcomp : updateFolderTree (i :: rest) fname g =
        match updateFolderTree rest fname g with
        | some r => some (i :: r)
        | none => none := by
      rw [updateFolderTree]
      rcases hmm : jget i "item" with _ | v
      · rfl
      · rcases v with _ | _ | _ | _ | _ | xs | _ <;>
          first
          | exact (hnf _ hmm).elim
          | rfl
    rw [hcomp, hrest] at h
    simp only [Option.some.injEq] at h
    subst h
    rcases occ_cons_inv hocc with h1 | ⟨ys, hys, hocc1⟩ | h1
    · subst h1
      exact .here (by simp)
    · exact .inside i ys (by simp) hys hocc1
    · exact occ_cons_lift (ihrest hG r x hxf hrest h1)
  | case7 fname g i rest hrest hnf ihrest =>
    intro hG T' x hxf h hocc
    have hcomp : updateFolderTree (i :: rest) fname g =
        match updateFolderTree rest fname g with
        | some r => some (i :: r)
        | none => none := by
      rw [updateFolderTree]
      rcases hmm : jget i "item" with _ | v
      · rfl
      · rcases v with _ | _ | _ | _ | _ | xs | _ <;>
          first
          | exact (hnf _ hmm).elim
          | rfl
    rw [hcomp, hrest] at h
    exact absurd h (by simp)

theorem placeG_spec (c : JVal) :
    ∀ (fo : JVal) (ys : List JVal), jget fo "item" = some (.arr ys) →
      placeG c fo = fo ∨ placeG c fo = setItems fo (ys ++ [clean_item c]) := by
  intro fo ys hm
  rw [placeG]
  by_cases hex : cloneExistsIn (childItems fo) c
  · exact Or.inl (by simp [hex])
  · refine Or.inr ?_
    have hch : childItems fo = ys := by
      rw [childItems]
      rw [hm]
    rw [hch] at hex
    simp [hex, hch]

theorem placeClone_occ {x c : JVal}
    (hx : hasFolderNamed ((jget c "parentFolderName").getD .null) x = false)
    (T : List JVal) (hocc : OccursIn x T) : OccursIn x (placeClone T c) := by
  rw [placeClone]
  by_cases ht : truthy ((jget c "parentFolderName").getD .null)
  · simp only [ht, if_true]
    cases hupd : updateFolderTree T ((jget c "parentFolderName").getD .null)
        (placeG c) with
    | some newTree =>
      exact updateFolderTree_occ (clean_item c) T _ (placeG c) (placeG_spec c)
        newTree x hx hupd hocc
    | none => exact occ_append_left hocc
  · simp only [ht, if_false]
    exact occ_append_left hocc

theorem foldl_placeClone_occ {x : JVal} :
    ∀ (clones : List JVal) (T : List JVal),
      (∀ c ∈ clones,
        hasFolderNamed ((jget c "parentFolderName").getD .null) x = false) →
      OccursIn x T → OccursIn x (clones.foldl placeClone T) := by
  intro clones
  induction clones with
  | nil => intro T _ hocc; simpa using hocc
  | cons c rest ih =>
    intro T hall hocc
    rw [List.foldl_cons]
    exact ih (placeClone T c) (fun z hz => hall z (by simp [hz]))
      (placeClone_occ (hall c (by simp)) T hocc)

theorem upd_none_hasFolderL :
    ∀ (T : List JVal) (pfn : JVal) (g : JVal → JVal),
      updateFolderTree T pfn g = none → hasFolderNamedL pfn T = false := by
  intro T pfn g
  induction T, pfn, g using updateFolderTree.induct with
  | case1 fname g =>
    intro h
    rw [hasFolderNamedL]
  | case2 fname g i rest xs hm hname =>
    intro h
    rw [updateFolderTree] at h
    rw [hm] at h
    simp [hname] at h
  | case3 fname g i rest xs hm hname r hupd ih =>
    intro h
    rw [updateFolderTree] at h
    rw [hm] at h
    simp [hname, hupd] at h
  | case4 fname g i rest xs hm hname hchild r hrest ihxs ihrest =>
    intro h
    rw [updateFolderTree] at h
    rw [hm] at h
    simp [hname, hchild, hrest] at h
  | case5 fname g i rest xs hm hname hchild hrest ihxs ihrest =>
    intro h
    rw [hasFolderNamedL]
    have hi : hasFolderNamed fname i = false := by
      rw [hasFolderNamed]
      rw [hm]
      simp [hname, ihxs hchild]
    simp [hi, ihrest hrest]
  | case6 fname g i rest r hrest hnf ihrest =>
    intro h
    have hcomp : updateFolderTree (i :: rest) fname g =
        match updateFolderTree rest fname g with
        | some r => some (i :: r)
        | none => none := by
      rw [updateFolderTree]
      rcases hmm : jget i "item" with _ | v
      · rfl
      · rcases v with _ | _ | _ | _ | _ | xs | _ <;>
          first
          | exact (hnf _ hmm).elim
          | rfl
    rw [hcomp, hrest] at h
    simp at h
  | case7 fname g i rest hrest hnf ihrest =>
    intro h
    rw [hasFolderNamedL]
    have hi : hasFolderNamed fname i = false :=
      hasFolderNamed_of_not_folder ((isFolderList_false_iff i).mpr hnf)
    simp [hi, ihrest hrest]

theorem upd_found :
    ∀ (T : List JVal) (pfn : JVal) (g : JVal → JVal) (T' : List JVal),
      updateFolderTree T pfn g = some T' →
      ∃ f0 xs, jget f0 "item" = some (.arr xs) ∧ nameOrNull f0 = pfn ∧
        OccursIn f0 T ∧ OccursIn (g f0) T' := by
  intro T pfn g
  induction T, pfn, g using updateFolderTree.induct with
  | case1 fname g =>
    intro T' h
    rw [updateFolderTree] at h
    exact absurd h (by simp)
  | case2 fname g i rest xs hm hname =>
    intro T' h
    rw [updateFolderTree] at h
    rw [hm] at h
    simp only at h
    rw [if_pos hname] at h
    simp only [Option.some.injEq] at h
    subst h
    exact ⟨i, xs, hm, (jval_beq_iff _ _).mp hname, .here (by simp), .here (by simp)⟩
  | case3 fname g i rest xs hm hname r hupd ih =>
    intro T' h
    rw [updateFolderTree] at h
    rw [hm] at h
    simp only at h
    rw [if_neg hname] at h
    rw [hupd] at h
    simp only [Option.some.injEq] at h
    subst h
    obtain ⟨f0, ys, hf1, hf2, hf3, hf4⟩ := ih r hupd
    exact ⟨f0, ys, hf1, hf2, .inside i xs (by simp) hm hf3,
      .inside (setItems i r) r (by simp) (jget_setItems_item _ hm) hf4⟩
  | case4 fname g i rest xs hm hname hchild r hrest ihxs ihrest =>
    intro T' h
    rw [updateFolderTree] at h
    rw [hm] at h
    simp only at h
    rw [if_neg hname] at h
    rw [hchild, hrest] at h
    simp only [Option.some.injEq] at h
    subst h
    obtain ⟨f0, ys, hf1, hf2, hf3, hf4⟩ := ihrest r hrest
    exact ⟨f0, ys, hf1, hf2, occ_cons_lift hf3, occ_cons_lift hf4⟩
  | case5 fname g i rest xs hm hname hchild hrest ihxs ihrest =>
    intro T' h
    rw [updateFolderTree] at h
    rw [hm] at h
    simp [hname, hchild, hrest] at h
  | case6 fname g i rest r hrest hnf ihrest =>
    intro T' h
    have hcomp : updateFolderTree (i :: rest) fname g =
        match updateFolderTree rest fname g with
        | some r => some (i :: r)
        | none => none := by
      rw [updateFolderTree]
      rcases hmm : jget i "item" with _ | v
      · rfl
      · rcases v with _ | _ | _ | _ | _ | xs | _ <;>
          first
          | exact (hnf _ hmm).elim
          | rfl
    rw [hcomp, hrest] at h
    simp only [Option.some.injEq] at h
    subst h
    obtain ⟨f0, ys, hf1, hf2, hf3, hf4⟩ := ihrest r hrest
    exact ⟨f0, ys, hf1, hf2, occ_cons_lift hf3, occ_cons_lift hf4⟩
  | case7 fname g i rest hrest hnf ihrest =>
    intro T' h
    have hcomp : updateFolderTree (i :: rest) fname g =
        match updateFolderTree rest fname g with
        | some r => some (i :: r)
        | none => none := by
      rw [updateFolderTree]
      rcases hmm : jget i "item" with _ | v
      · rfl
      · rcases v with _ | _ | _ | _ | _ | xs | _ <;>
          first
          | exact (hnf _ hmm).elim
          | rfl
    rw [hcomp, hrest] at h
    exact absurd h (by simp)

theorem occ_trans {f x : JVal} {ys : List JVal}
    (hm : jget f "item" = some (.arr ys)) (hx : OccursIn x ys) :
    ∀ {T : List JVal}, OccursIn f T → OccursIn x T := by
  intro T hf
  induction hf with
  | here h => exact .inside f ys h hm hx
  | inside f1 xs1 hf1 hxs1 h ih => exact .inside f1 xs1 hf1 hxs1 ih

theorem flatten_nonfolder :
    ∀ (l : List JVal) (u : JVal), u ∈ flatten_items l → isFolderList u = false := by
  intro l
  induction l using flatten_items.induct with
  | case1 =>
    intro u hu
    rw [flatten_items] at hu
    simp at hu
  | case2 i rest iha ihrest =>
    intro u hu
    rw [flatten_items] at hu
    rcases hmm : jget i "item" with _ | v
    · rw [hmm] at hu
      simp only at hu
      rcases List.mem_append.mp hu with h1 | h1
      · have : u = i := by simpa using h1
        subst this
        simp [isFolderList, hmm]
      · exact ihrest u h1
    · rcases v with _ | b | n | q | sv | xs | kvs
      case arr =>
        rw [hmm] at hu
        simp only at hu
        rcases List.mem_append.mp hu with h1 | h1
        · exact iha xs hmm u h1
        · exact ihrest u h1
      all_goals
        rw [hmm] at hu
        simp only at hu
        rcases List.mem_append.mp hu with h1 | h1
        · have : u = i := by simpa using h1
          subst this
          simp [isFolderList, hmm]
        · exact ihrest u h1

theorem find_matching_spec {r u : JVal} {l : List JVal}
    (h : find_matching_item r l = some u) :
    u ∈ l ∧ is_injection_request u = false ∧ is_clone u = false ∧
      nameStr u = nameStr r ∧ methodValD u = methodValD r := by
  rw [find_matching_item] at h
  have hmem := List.mem_of_find?_eq_some h
  have hpred := List.find?_some h
  simp only [Bool.and_eq_true, Bool.not_eq_true'] at hpred
  obtain ⟨⟨⟨h1, h2⟩, h3⟩, h4⟩ := hpred
  refine ⟨hmem, h1, h2, ?_, ?_⟩
  · exact (eq_of_beq h3).symm
  · exact ((jval_beq_iff _ _).mp h4).symm

def cloneReq : JVal :=
  .obj [("name", .str "Evil (Copy)"), ("request", .obj [("method", .str "GET")]),
        ("parentFolderName", .str "API")]

def cloneClean : JVal :=
  .obj [("name", .str "Evil (Copy)"), ("request", .obj [("method", .str "GET")])]

def apiFolder : JVal := .obj [("name", .str "API"), ("item", .arr [])]

def apiFolderWithClone : JVal :=
  .obj [("name", .str "API"), ("item", .arr [cloneClean])]

def xssFolder : JVal := .obj [("name", .str "XSS-Injections"), ("item", .arr [])]

def xssClone : JVal :=
  .obj [("name", .str "Evil (Copy)"), ("request", .obj [("method", .str "GET")]),
        ("parentFolderName", .str "XSS-Injections")]

def xssFolderGrown : JVal :=
  .obj [("name", .str "XSS-Injections"), ("item", .arr [cloneClean])]

/-- C1: every non-injection request occurring in the original tree still occurs
in the merge result, either verbatim or as the unique matching updated item
with the same name and method. -/
theorem c1_merge_preserves_originals
    (O U : List JVal) (r : JVal)
    (hocc : OccursIn r O) (hfold : isFolderList r = false)
    (hreq : hasRequest r = true) (hinj : is_injection_request r = false) :
    OccursIn r (merge_collection_items O U) ∨
    (∃ u, find_matching_item r (flatten_items U) = some u ∧
      is_injection_request u = false ∧ is_clone u = false ∧
      nameStr u = nameStr r ∧ methodValD u = methodValD r ∧
      OccursIn u (merge_collection_items O U)) := by
  rw [merge_collection_items]
  rcases merge_keeps_request (flatten_items U) O r hocc hfold hreq hinj with
    h | ⟨u, hu, h⟩
  · left
    exact foldl_placeClone_occ (collectClones U) _
      (fun c _ => hasFolderNamed_of_not_folder hfold) h
  · right
    obtain ⟨hmem, h1, h2, h3, h4⟩ := find_matching_spec hu
    have hufold : isFolderList u = false := flatten_nonfolder U u hmem
    exact ⟨u, hu, h1, h2, h3, h4,
      foldl_placeClone_occ (collectClones U) _
        (fun c _ => hasFolderNamed_of_not_folder hufold) h⟩

theorem c1_merge_preserves_originals_witness :
    OccursIn cloneClean (merge_collection_items [cloneClean] []) ∨
    (∃ u, find_matching_item cloneClean (flatten_items []) = some u ∧
      is_injection_request u = false ∧ is_clone u = false ∧
      nameStr u = nameStr cloneClean ∧ methodValD u = methodValD cloneClean ∧
      OccursIn u (merge_collection_items [cloneClean] [])) :=
  c1_merge_preserves_originals [cloneClean] [] cloneClean (.here (by simp))
    (by decide) (by decide) (by decide)

/-- C2 counterexample: an injection-tagged folder is NOT always preserved
byte-identically — a clone in the updated tree whose `parentFolderName` names
the injection folder is appended inside it, changing the subtree. -/
theorem c2_injection_preservation_counterexample :
    is_injection_folder xssFolder = true ∧
    merge_collection_items [xssFolder] [xssClone] = [xssFolderGrown] ∧
    xssFolderGrown ≠ xssFolder := by
  refine ⟨by decide, ?_, by decide⟩
  have h1 : hasRequest xssClone = true := by decide
  have h2 : is_clone xssClone = true := by decide
  have h8 : strContains (pyLower (nameStr xssFolder)) "injection" = true := by decide
  have h9 : placeG xssClone xssFolder = xssFolderGrown := by decide
  have h3 : truthy (JVal.str "XSS-Injections") = true := by decide
  have h10 : (nameOrNull xssFolder == JVal.str "XSS-Injections") = true := by decide
  simp only [xssClone, xssFolder, xssFolderGrown, cloneClean] at h1 h2 h8 h9 h10 ⊢
  simp [merge_collection_items, collectClones, flatten_items, merge_recursive,
    mergeItem, placeClone, updateFolderTree, setItems,
    h1, h2, h8, h9, h3, h10, jget, lookupKV]

/-- C2 amended: an injection-tagged node occurring in the original tree still
occurs byte-identically in the merge result, provided no collected clone of
the updated tree declares a `parentFolderName` that names a folder inside that
node's subtree (the clone-placement pass appends inside such folders). -/
theorem c2_injection_preservation_amended
    (O U : List JVal) (x : JVal)
    (hinj : strContains (pyLower (nameStr x)) "injection" = true)
    (hocc : OccursIn x O)
    (hsafe : ∀ c ∈ collectClones U,
      hasFolderNamed ((jget c "parentFolderName").getD .null) x = false) :
    OccursIn x (merge_collection_items O U) := by
  rw [merge_collection_items]
  exact foldl_placeClone_occ (collectClones U) _ hsafe
    (merge_keeps_injection (flatten_items U) O x hinj hocc)

theorem c2_injection_preservation_amended_witness :
    OccursIn xssFolder (merge_collection_items [xssFolder] []) :=
  c2_injection_preservation_amended [xssFolder] [] xssFolder (by decide)
    (.here (by simp))
    (by intro c hc; rw [collectClones] at hc; simp at hc)

/-- C3 counterexample: a clone whose `parentFolderName` names a folder absent
from the merge result is appended at the root WITHOUT any duplicate check, so
re-running the merge with the same updated tree inserts a second copy. -/
theorem c3_clone_placement_counterexample :
    is_clone cloneReq = true ∧
    jget cloneReq "parentFolderName" = some (.str "API") ∧
    clean_item cloneReq = cloneClean ∧
    merge_collection_items [] [cloneReq] = [cloneClean] ∧
    merge_collection_items [cloneClean] [cloneReq] = [cloneClean, cloneClean] := by
  refine ⟨by decide, by decide, by decide, ?_, ?_⟩
  · have h1 : hasRequest cloneReq = true := by decide
    have h2 : is_clone cloneReq = true := by decide
    have h3 : truthy ((jget cloneReq "parentFolderName").getD .null) = true := by
      decide
    have h4 : clean_item cloneReq = cloneClean := by decide
    simp only [cloneReq, cloneClean] at h1 h2 h3 h4 ⊢
    simp [merge_collection_items, collectClones, flatten_items, merge_recursive,
      placeClone, updateFolderTree, h1, h2, h3, h4, jget, lookupKV]
  · have h1 : hasRequest cloneReq = true := by decide
    have h2 : is_clone cloneReq = true := by decide
    have h4 : clean_item cloneReq = cloneClean := by decide
    have h5 : hasRequest cloneClean = true := by decide
    have h6 : is_injection_request cloneClean = false := by decide
    have h7 : find_matching_item cloneClean [cloneReq] = none := by decide
    simp only [cloneReq, cloneClean] at h1 h2 h4 h5 h6 h7 ⊢
    simp [merge_collection_items, collectClones, flatten_items, merge_recursive,
      mergeItem, placeClone, updateFolderTree,
      h1, h2, h4, h5, h6, h7, jget, lookupKV]

/-- C3 amended: with a single collected clone `c`, the clone lands at the root
(cleaned, unconditionally) when no parent folder is declared or no folder of
that name exists in the merge result; when such a folder exists, the first one
found (in `find_folder_by_name` order) is rebuilt: the cleaned clone is
appended to its children unless an item with the clone's name and method is
already there, in which case the folder is left unchanged. Concretely, a
first merge places the clone inside its declared folder, and re-merging the
same updated tree against that result changes nothing; only the root fallback
(folder absent) duplicates, as the counterexample shows. -/
theorem c3_clone_placement_amended :
    (∀ (O U : List JVal) (c : JVal), collectClones U = [c] →
      truthy ((jget c "parentFolderName").getD .null) = false →
      merge_collection_items O U =
        merge_recursive (flatten_items U) O ++ [clean_item c]) ∧
    (∀ (O U : List JVal) (c : JVal), collectClones U = [c] →
      truthy ((jget c "parentFolderName").getD .null) = true →
      hasFolderNamedL ((jget c "parentFolderName").getD .null)
        (merge_recursive (flatten_items U) O) = false →
      merge_collection_items O U =
        merge_recursive (flatten_items U) O ++ [clean_item c]) ∧
    (∀ (O U : List JVal) (c : JVal), collectClones U = [c] →
      truthy ((jget c "parentFolderName").getD .null) = true →
      hasFolderNamedL ((jget c "parentFolderName").getD .null)
        (merge_recursive (flatten_items U) O) = true →
      ∃ f0 xs, jget f0 "item" = some (.arr xs) ∧
        nameOrNull f0 = (jget c "parentFolderName").getD .null ∧
        OccursIn f0 (merge_recursive (flatten_items U) O) ∧
        OccursIn (placeG c f0) (merge_collection_items O U) ∧
        (cloneExistsIn xs c = true → placeG c f0 = f0) ∧
        (cloneExistsIn xs c = false →
          OccursIn (clean_item c) (merge_collection_items O U))) ∧
    merge_collection_items [apiFolder] [cloneReq] = [apiFolderWithClone] ∧
    merge_collection_items [apiFolderWithClone] [cloneReq] = [apiFolderWithClone] := by
  refine ⟨?_, ?_, ?_, ?_, ?_⟩
  · intro O U c hc htr
    rw [merge_collection_items, hc]
    simp only [List.foldl_cons, List.foldl_nil]
    simp [placeClone, htr]
  · intro O U c hc htr hfalse
    rw [merge_collection_items, hc]
    simp only [List.foldl_cons, List.foldl_nil]
    cases hupd : updateFolderTree (merge_recursive (flatten_items U) O)
        ((jget c "parentFolderName").getD .null) (placeG c) with
    | some T' =>
      exact absurd (upd_some_hasFolderL _ _ _ T' hupd) (by simp [hfalse])
    | none =>
      simp [placeClone, htr, hupd]
  · intro O U c hc htr htrue
    cases hupd : updateFolderTree (merge_recursive (flatten_items U) O)
        ((jget c "parentFolderName").getD .null) (placeG c) with
    | none =>
      exact absurd (upd_none_hasFolderL _ _ _ hupd) (by simp [htrue])
    | some T' =>
      have hmerge : merge_collection_items O U = T' := by
        rw [merge_collection_items, hc]
        simp only [List.foldl_cons, List.foldl_nil]
        simp [placeClone, htr, hupd]
      obtain ⟨f0, xs, hf1, hf2, hf3, hf4⟩ := upd_found _ _ _ T' hupd
      have hch : childItems f0 = xs := by
        rw [childItems]
        rw [hf1]
      refine ⟨f0, xs, hf1, hf2, hf3, ?_, ?_, ?_⟩
      · rw [hmerge]
        exact hf4
      · intro hex
        simp [placeG, hch, hex]
      · intro hex
        rw [hmerge]
        have hg : placeG c f0 = setItems f0 (xs ++ [clean_item c]) := by
          simp [placeG, hch, hex]
        rw [hg] at hf4
        exact occ_trans (jget_setItems_item _ hf1) (.here (by simp)) hf4
  · have h1 : hasRequest cloneReq = true := by decide
    have h2 : is_clone cloneReq = true := by decide
    have h8 : strContains (pyLower (nameStr apiFolder)) "injection" = false := by
      decide
    have h9 : placeG cloneReq apiFolder = apiFolderWithClone := by decide
    have h3 : truthy (JVal.str "API") = true := by decide
    have h10 : (nameOrNull apiFolder == JVal.str "API") = true := by decide
    simp only [cloneReq, apiFolder, apiFolderWithClone, cloneClean]
      at h1 h2 h8 h9 h10 ⊢
    simp [merge_collection_items, collectClones, flatten_items, merge_recursive,
      mergeItem, placeClone, updateFolderTree, setItems,
      h1, h2, h8, h9, h3, h10, jget, lookupKV]
  · have h1 : hasRequest cloneReq = true := by decide
    have h2 : is_clone cloneReq = true := by decide
    have h5 : hasRequest cloneClean = true := by decide
    have h6 : is_injection_request cloneClean = false := by decide
    have h7 : find_matching_item cloneClean [cloneReq] = none := by decide
    have h8 : strContains (pyLower (nameStr apiFolderWithClone)) "injection" =
        false := by decide
    have h9 : placeG cloneReq apiFolderWithClone = apiFolderWithClone := by decide
    have h3 : truthy (JVal.str "API") = true := by decide
    have h10 : (nameOrNull apiFolderWithClone == JVal.str "API") = true := by decide
    simp only [cloneReq, apiFolderWithClone, cloneClean]
      at h1 h2 h5 h6 h7 h8 h9 h10 ⊢
    simp [merge_collection_items, collectClones, flatten_items, merge_recursive,
      mergeItem, placeClone, updateFolderTree, setItems,
      h1, h2, h5, h6, h7, h8, h9, h3, h10, jget, lookupKV]

theorem c3_clone_placement_amended_witness :
    (merge_collection_items [] [cloneClean] =
      merge_recursive (flatten_items [cloneClean]) [] ++ [clean_item cloneClean]) ∧
    (merge_collection_items [] [cloneReq] =
      merge_recursive (flatten_items [cloneReq]) [] ++ [clean_item cloneReq]) ∧
    (∃ f0 xs, jget f0 "item" = some (.arr xs) ∧
      nameOrNull f0 = (jget cloneReq "parentFolderName").getD .null ∧
      OccursIn f0 (merge_recursive (flatten_items [cloneReq]) [apiFolder]) ∧
      OccursIn (placeG cloneReq f0)
        (merge_collection_items [apiFolder] [cloneReq]) ∧
      (cloneExistsIn xs cloneReq = true → placeG cloneReq f0 = f0) ∧
      (cloneExistsIn xs cloneReq = false →
        OccursIn (clean_item cloneReq)
          (merge_collection_items [apiFolder] [cloneReq]))) := by
  have hcoll : collectClones [cloneReq] = [cloneReq] := by
    have h1 : hasRequest cloneReq = true := by decide
    have h2 : is_clone cloneReq = true := by decide
    simp only [cloneReq] at h1 h2 ⊢
    simp [collectClones, h1, h2, jget, lookupKV]
  refine ⟨?_, ?_, ?_⟩
  · refine c3_clone_placement_amended.1 [] [cloneClean] cloneClean ?_ (by decide)
    have h1 : hasRequest cloneClean = true := by decide
    have h2 : is_clone cloneClean = true := by decide
    simp only [cloneClean] at h1 h2 ⊢
    simp [collectClones, h1, h2, jget, lookupKV]
  · refine c3_clone_placement_amended.2.1 [] [cloneReq] cloneReq hcoll (by decide) ?_
    simp [flatten_items, merge_recursive, hasFolderNamedL]
  · refine c3_clone_placement_amended.2.2.1 [apiFolder] [cloneReq] cloneReq hcoll
      (by decide) ?_
    have hpfn : (jget cloneReq "parentFolderName").getD .null = JVal.str "API" := by
      decide
    rw [hpfn]
    have h8 : strContains (pyLower (nameStr apiFolder)) "injection" = false := by
      decide
    have h1 : hasRequest cloneReq = true := by decide
    have h2 : is_clone cloneReq = true := by decide
    have h10 : (nameOrNull apiFolder == JVal.str "API") = true := by decide
    simp only [cloneReq, apiFolder] at h8 h1 h2 h10 ⊢
    simp [flatten_items, merge_recursive, mergeItem, hasFolderNamedL,
      hasFolderNamed, setItems, h8, h1, h2, h10, jget, lookupKV]
